import Mathlib

/-!
Verification of the workflow execution engine of the repository
(backend/services/workflow_executor.py and backend/services/llm_service.py).

The engine is shallowly embedded: nodes, edges and per-node configuration
are plain data; the external capabilities (vector-store retrieval, web
search, language-model generation) are oracle functions passed as
parameters, mirroring the spec's capability interfaces.  Every executor
additionally produces a list of observable events (node dispatches and
capability invocations) so that properties such as "performs no external
calls" are statable.  The event log is pure instrumentation: it never
feeds back into the data flow.
-/

deriving instance DecidableEq for Except

namespace Workflow

/-- A workflow node: its unique id and the component-type tag stored at
node.data.componentType in the source's JSON shape. -/
structure NodeData where
  id : String
  componentType : String
deriving DecidableEq

/-- A directed edge, an ordered pair of node ids (edge.source, edge.target). -/
structure Edge where
  source : String
  target : String
deriving DecidableEq

/-- Per-node configuration mapping.  Each field models the corresponding
optional key of the node's config dict; a field set to none models an
absent key, so config.get(key, default) becomes Option.getD.
Temperature is a float in the source; it is only ever threaded through to
the generation capability, never computed with, so it is represented as a
rational number. -/
structure NodeConfig where
  collectionName : Option String := none
  embeddingModel : Option String := none
  systemPrompt : Option String := none
  provider : Option String := none
  model : Option String := none
  temperature : Option Rat := none
  enableWebSearch : Option Bool := none
  searchProvider : Option String := none
deriving DecidableEq

/-- Metadata written by the generation executor
(state.metadata = dict with keys model and web_context). -/
structure Metadata where
  model : String
  web_context : Option String
deriving DecidableEq

/-- The mutable execution state threaded through the run.  The Python dict
starts with keys query, context, response; the metadata key is only added
when a generation node runs, which the Option models. -/
structure ExecutionState where
  query : String
  context : Option String
  response : Option String
  metadata : Option Metadata
deriving DecidableEq

/-- A retrieved chunk, as returned by the retrieval capability
(embedding_service.query_collection returns dicts with keys content and
distance; distance is a float that the executor never reads, so only
content is modelled). -/
structure Chunk where
  content : String
deriving DecidableEq

/-- A chat message, as built for the openai provider branch. -/
structure Message where
  role : String
  content : String
deriving DecidableEq

/-- The concrete request issued to the generation capability: the openai
branch sends a messages list (system prompt included when non-empty), the
gemini branch sends the bare prompt and drops the system prompt. -/
inductive LlmCall where
  | openai (model : String) (messages : List Message) (temperature : Rat)
  | gemini (model : String) (prompt : String)
deriving DecidableEq

/-- Result dict of llm_service.generate_response. -/
structure GenResult where
  response : String
  model : String
  web_context : Option String
deriving DecidableEq

/-- Errors the orchestrator can surface.  missingEntryNode models the
ValueError "No User Query component found"; keyError models the KeyError
raised when an edge's source id is not a node id; nodeNotFound models the
StopIteration of the next(...) lookup in the execute loop; external wraps
a propagated capability failure. -/
inductive WfError where
  | missingEntryNode
  | keyError (k : String)
  | nodeNotFound (id : String)
  | external (msg : String)
deriving DecidableEq

/-- Observable events of a run: one nodeVisited per loop iteration, plus
one event per external-capability invocation. -/
inductive Event where
  | nodeVisited (id componentType : String)
  | retrievalCall (collectionName queryText embeddingModel : String) (nResults : Nat)
  | webSearchCall (query provider : String)
  | llmCall (call : LlmCall)
deriving DecidableEq

/-- Retrieval capability: query(collectionName, queryText, embeddingModel, topK). -/
abbrev RetrievalOracle := String → String → String → Nat → Except String (List Chunk)

/-- Web-search capability: search(query, provider). -/
abbrev WebSearchOracle := String → String → Except String String

/-- Generation capability: one call per provider branch. -/
abbrev LlmOracle := LlmCall → Except String String

/-! ## The execution order resolver (build_execution_order) -/

/-- Adjacency lookup: graph.get(node_id, []). -/
def adjGet (g : List (String × List String)) (u : String) : List String :=
  (g.lookup u).getD []

/-- The initial adjacency dict: one empty neighbour list per node id
(dict comprehension at the top of build_execution_order). -/
def initGraph (nodes : List NodeData) : List (String × List String) :=
  nodes.map (fun n => (n.id, []))

/-- graph[source].append(target): append target to the neighbour list of the
first entry whose key is source; identity when the key is absent (the
caller checks presence first). -/
def adjAppend : List (String × List String) → String → String → List (String × List String)
  | [], _, _ => []
  | p :: rest, s, t =>
    if p.1 == s then (p.1, p.2 ++ [t]) :: rest else p :: adjAppend rest s t

/-- The edge loop of build_execution_order: for each edge,
graph[edge.source].append(edge.target), raising KeyError when the source
id is not a key of the dict. -/
def buildGraphAux : List Edge → List (String × List String) → Except WfError (List (String × List String))
  | [], g => .ok g
  | e :: es, g =>
    if (g.lookup e.source).isSome then buildGraphAux es (adjAppend g e.source e.target)
    else .error (.keyError e.source)

/-- The inner recursion of the resolver.  The Python dfs keeps a visited
set and an order list that are always extended together, so a single list
suffices; the membership test models "if node_id in visited".  The Python
recursion terminates on every finite graph (an already-visited node
returns at once), which the fuel makes explicit: the stability theorem
below shows the canonical fuel is enough, i.e. adding fuel never changes
the result. -/
def dfs (g : List (String × List String)) : Nat → String → List String → List String
  | 0, _, order => order
  | fuel + 1, u, order =>
    if u ∈ order then order
    else (adjGet g u).foldl (fun acc v => dfs g fuel v acc) (order ++ [u])

/-- The recursion of dfs over a neighbour list, written as an explicit
recursion for proofs; dfs_succ below connects it to the foldl in dfs. -/
def dfsList (g : List (String × List String)) (fuel : Nat) : List String → List String → List String
  | [], order => order
  | v :: vs, order => dfsList g fuel vs (dfs g fuel v order)

/-- Fuel that provably suffices for the traversal: every productive call
marks a previously unmarked id drawn from the node ids and edge targets. -/
def dfsDefaultFuel (nodes : List NodeData) (edges : List Edge) : Nat :=
  nodes.length + edges.length + 1

/-- build_execution_order with explicit fuel for the dfs recursion.  The
entry check mirrors Python's `if not start_node:` truthiness test: it
raises the ValueError both when no userQuery node exists (start_node is
None) and when the first userQuery node's id is the falsy empty string. -/
def build_execution_order_fuel (nodes : List NodeData) (edges : List Edge) (fuel : Nat) :
    Except WfError (List String) :=
  match buildGraphAux edges (initGraph nodes) with
  | .error e => .error e
  | .ok graph =>
    match nodes.find? (fun n => n.componentType == "userQuery") with
    | none => .error .missingEntryNode
    | some n =>
      if n.id = "" then .error .missingEntryNode
      else .ok (dfs graph fuel n.id [])

/-- build_execution_order: adjacency dict from all edges, entry node = first
node whose componentType is userQuery (ValueError when none exists or when
its id is the empty string, by truthiness), then the depth-first traversal
from the entry node. -/
def build_execution_order (nodes : List NodeData) (edges : List Edge) :
    Except WfError (List String) :=
  build_execution_order_fuel nodes edges (dfsDefaultFuel nodes edges)

/-! ## The generation service (llm_service.generate_response) -/

/-- Lines 57-60 of llm_service.py: prompt = query, replaced by the context
template when context is truthy (Python's "if context:" is false both for
None and for the empty string). -/
def buildPrompt (query : String) (context : Option String) : String :=
  match context with
  | none => query
  | some c => if c = "" then query else "Context:\n" ++ c ++ "\n\nQuestion: " ++ query

/-- Lines 70-73: messages list for the openai branch; the system prompt is
appended only when truthy (absent or empty system prompts are skipped). -/
def mkMessages (system_prompt : Option String) (prompt : String) : List Message :=
  (match system_prompt with
   | none => []
   | some sp => if sp = "" then [] else [⟨"system", sp⟩]) ++ [⟨"user", prompt⟩]

/-- Lines 68-95: dispatch on the provider string; openai sends the messages
list, any other provider takes the gemini branch and sends the bare
prompt.  Both return the configured model id and the web context. -/
def llmDispatch (llmO : LlmOracle) (prompt : String) (system_prompt : Option String)
    (provider model : String) (temperature : Rat) (web_context : Option String) :
    Except String GenResult × List Event :=
  if provider == "openai" then
    let messages := mkMessages system_prompt prompt
    let call := LlmCall.openai model messages temperature
    (match llmO call with
     | .ok content => .ok ⟨content, model, web_context⟩
     | .error e => .error e, [.llmCall call])
  else
    let call := LlmCall.gemini model prompt
    (match llmO call with
     | .ok text => .ok ⟨text, model, web_context⟩
     | .error e => .error e, [.llmCall call])

/-- llm_service.generate_response: build the prompt from the context, then,
when web search is enabled, call the web-search capability (its failure
propagates) and prepend its result to the prompt, and finally call the
provider branch. -/
def generate_response (webO : WebSearchOracle) (llmO : LlmOracle)
    (query : String) (context : Option String) (system_prompt : Option String)
    (provider model : String) (temperature : Rat)
    (enable_web_search : Bool) (search_provider : String) :
    Except String GenResult × List Event :=
  let prompt := buildPrompt query context
  if enable_web_search then
    match webO query search_provider with
    | .error e => (.error e, [.webSearchCall query search_provider])
    | .ok web_context =>
      let prompt2 := "Web Search Results:\n" ++ web_context ++ "\n\n" ++ prompt
      let r := llmDispatch llmO prompt2 system_prompt provider model temperature (some web_context)
      (r.1, .webSearchCall query search_provider :: r.2)
  else
    llmDispatch llmO prompt system_prompt provider model temperature none

/-! ## The orchestrator (execute_workflow) -/

/-- node_configs.get(node_id, {}). -/
def cfgOf (node_configs : List (String × NodeConfig)) (id : String) : NodeConfig :=
  (node_configs.lookup id).getD {}

/-- One iteration of the execute loop: look the node up (StopIteration when
absent), then dispatch on its componentType.  userQuery and output are
pass-throughs; knowledgeBase queries the retrieval capability with a fixed
top-k of 3 and swallows any failure by setting context to none; llmEngine
calls generate_response and propagates its failure; every other tag falls
through the if/elif chain unchanged. -/
def runNode (retrievalO : RetrievalOracle) (webO : WebSearchOracle) (llmO : LlmOracle)
    (nodes : List NodeData) (node_configs : List (String × NodeConfig))
    (state : ExecutionState) (node_id : String) :
    Except WfError ExecutionState × List Event :=
  match nodes.find? (fun n => n.id == node_id) with
  | none => (.error (.nodeNotFound node_id), [])
  | some node =>
    let component_type := node.componentType
    let config := cfgOf node_configs node_id
    if component_type == "userQuery" then
      (.ok state, [.nodeVisited node_id component_type])
    else if component_type == "knowledgeBase" then
      let collection_name := config.collectionName.getD "default"
      let embedding_model := config.embeddingModel.getD "openai"
      (match retrievalO collection_name state.query embedding_model 3 with
       | .ok results =>
         .ok { state with
               context := some (String.intercalate "\n\n" (results.map (fun r => r.content))) }
       | .error _ => .ok { state with context := none },
       [.nodeVisited node_id component_type,
        .retrievalCall collection_name state.query embedding_model 3])
    else if component_type == "llmEngine" then
      let r := generate_response webO llmO state.query state.context config.systemPrompt
        (config.provider.getD "openai") (config.model.getD "gpt-4")
        (config.temperature.getD (7 / 10)) (config.enableWebSearch.getD false)
        (config.searchProvider.getD "serpapi")
      (match r.1 with
       | .ok res =>
         .ok { state with
               response := some res.response
               metadata := some ⟨res.model, res.web_context⟩ }
       | .error e => .error (.external e),
       .nodeVisited node_id component_type :: r.2)
    else if component_type == "output" then
      (.ok state, [.nodeVisited node_id component_type])
    else
      (.ok state, [.nodeVisited node_id component_type])

/-- The execute loop over the resolved order, accumulating events; a failing
iteration aborts the rest of the order. -/
def runNodes (retrievalO : RetrievalOracle) (webO : WebSearchOracle) (llmO : LlmOracle)
    (nodes : List NodeData) (node_configs : List (String × NodeConfig)) :
    List String → ExecutionState → List Event → Except WfError ExecutionState × List Event
  | [], state, evs => (.ok state, evs)
  | id :: rest, state, evs =>
    match runNode retrievalO webO llmO nodes node_configs state id with
    | (.ok s', evs') => runNodes retrievalO webO llmO nodes node_configs rest s' (evs ++ evs')
    | (.error e, evs') => (.error e, evs ++ evs')

/-- The initial execution state: query seeded, everything else absent. -/
def initState (query : String) : ExecutionState :=
  ⟨query, none, none, none⟩

/-- execute_workflow: resolve the order, then run every node in order,
returning the final state dict (all of its fields) or the first fatal
error, together with the observable event log. -/
def execute_workflow (retrievalO : RetrievalOracle) (webO : WebSearchOracle) (llmO : LlmOracle)
    (query : String) (nodes : List NodeData) (edges : List Edge)
    (node_configs : List (String × NodeConfig)) :
    Except WfError ExecutionState × List Event :=
  match build_execution_order nodes edges with
  | .error e => (.error e, [])
  | .ok order => runNodes retrievalO webO llmO nodes node_configs order (initState query) []

/-! ## Reachability along the edge list -/

/-- Reachability from u along edges (reflexive-transitive closure of the
edge relation). -/
inductive Reaches (edges : List Edge) : String → String → Prop
  | refl (u : String) : Reaches edges u u
  | step {u w : String} (e : Edge) (he : e ∈ edges) (hs : e.source = u)
      (hr : Reaches edges e.target w) : Reaches edges u w

/-- Reachability through the adjacency structure while avoiding a visited
set: a path whose every vertex lies outside V.  RA g [] is plain
reachability through g. -/
inductive RA (g : List (String × List String)) (V : List String) : String → String → Prop
  | refl (u : String) (h : u ∉ V) : RA g V u u
  | step {u v w : String} (h : u ∉ V) (hv : v ∈ adjGet g u) (hr : RA g V v w) : RA g V u w

/-- The node ids of the events of a run, in order: which loop iterations
actually happened. -/
def visitedIds (evs : List Event) : List String :=
  evs.filterMap (fun e => match e with | .nodeVisited i _ => some i | _ => none)

/-- Number of elements of U not yet in order: the termination measure of
the traversal. -/
def unvisited (U order : List String) : Nat :=
  (U.filter (fun x => !(order.contains x))).length

/-! ## Lemmas about the adjacency construction -/

theorem lookup_isSome_iff (g : List (String × List String)) (u : String) :
    (g.lookup u).isSome = true ↔ u ∈ g.map Prod.fst := by
  induction g with
  | nil => simp
  | cons p rest ih =>
    obtain ⟨k, v⟩ := p
    by_cases h : u = k
    · subst h
      simp [List.lookup_cons]
    · have hb : (u == k) = false := beq_eq_false_iff_ne.2 h
      simp [List.lookup_cons, hb, h, ih]

theorem map_fst_adjAppend (g : List (String × List String)) (s t : String) :
    (adjAppend g s t).map Prod.fst = g.map Prod.fst := by
  induction g with
  | nil => rfl
  | cons p rest ih =>
    by_cases h : p.1 == s
    · simp [adjAppend, h]
    · simp [adjAppend, h, ih]

theorem lookup_adjAppend (g : List (String × List String)) (s t u : String) :
    (adjAppend g s t).lookup u =
      if u = s then (g.lookup s).map (fun l => l ++ [t]) else g.lookup u := by
  induction g with
  | nil => by_cases h : u = s <;> simp [adjAppend, h]
  | cons p rest ih =>
    obtain ⟨k, v⟩ := p
    by_cases hks : k = s
    · subst hks
      by_cases huk : u = k
      · subst huk
        simp [adjAppend, List.lookup_cons]
      · have hb : (u == k) = false := beq_eq_false_iff_ne.2 huk
        simp [adjAppend, List.lookup_cons, hb, huk]
    · have hbks : (k == s) = false := beq_eq_false_iff_ne.2 hks
      have hbsk : (s == k) = false := beq_eq_false_iff_ne.2 (Ne.symm hks)
      by_cases huk : u = k
      · subst huk
        have hus : ¬ u = s := hks
        simp [adjAppend, hbks, List.lookup_cons, hus]
      · have hb : (u == k) = false := beq_eq_false_iff_ne.2 huk
        simp [adjAppend, hbks, hbsk, List.lookup_cons, hb, ih]

theorem adjGet_adjAppend (g : List (String × List String)) (s t u : String)
    (hs : (g.lookup s).isSome = true) :
    adjGet (adjAppend g s t) u = if u = s then adjGet g s ++ [t] else adjGet g u := by
  obtain ⟨l, hl⟩ := Option.isSome_iff_exists.1 hs
  by_cases h : u = s <;> simp [adjGet, lookup_adjAppend, h, hl]

theorem adjGet_initGraph (nodes : List NodeData) (u : String) :
    adjGet (initGraph nodes) u = [] := by
  induction nodes with
  | nil => simp [adjGet, initGraph]
  | cons n rest ih =>
    by_cases h : u = n.id
    · subst h
      simp [adjGet, initGraph, List.lookup_cons]
    · have hb : (u == n.id) = false := beq_eq_false_iff_ne.2 h
      simpa [adjGet, initGraph, List.lookup_cons, hb] using ih

theorem map_fst_initGraph (nodes : List NodeData) :
    (initGraph nodes).map Prod.fst = nodes.map (fun n => n.id) := by
  simp [initGraph]

theorem buildGraphAux_ok (es : List Edge) (g g' : List (String × List String))
    (h : buildGraphAux es g = .ok g') :
    g'.map Prod.fst = g.map Prod.fst ∧
      ∀ u, adjGet g' u =
        adjGet g u ++ (es.filter (fun e => e.source == u)).map (fun e => e.target) := by
  induction es generalizing g with
  | nil =>
    cases h
    simp
  | cons e es ih =>
    unfold buildGraphAux at h
    by_cases hk : (g.lookup e.source).isSome = true
    · rw [if_pos hk] at h
      obtain ⟨h1, h2⟩ := ih _ h
      refine ⟨by rw [h1, map_fst_adjAppend], fun u => ?_⟩
      rw [h2 u, adjGet_adjAppend g e.source e.target u hk]
      by_cases hu : e.source = u
      · subst hu
        simp [List.filter_cons]
      · have hb : (e.source == u) = false := beq_eq_false_iff_ne.2 hu
        simp [List.filter_cons, hb, Ne.symm hu]
    · rw [if_neg hk] at h
      exact absurd h (by simp)

theorem buildGraphAux_isOk (es : List Edge) (g : List (String × List String))
    (h : ∀ e ∈ es, e.source ∈ g.map Prod.fst) :
    ∃ g', buildGraphAux es g = .ok g' := by
  induction es generalizing g with
  | nil => exact ⟨g, rfl⟩
  | cons e es ih =>
    have hk : (g.lookup e.source).isSome = true :=
      (lookup_isSome_iff g e.source).2 (h e (List.mem_cons_self e es))
    obtain ⟨g', hg'⟩ := ih (adjAppend g e.source e.target)
      (fun e' he' => by rw [map_fst_adjAppend]; exact h e' (List.mem_cons_of_mem e he'))
    exact ⟨g', by unfold buildGraphAux; rw [if_pos hk]; exact hg'⟩

theorem find?_filter_head (l : List NodeData) (p : NodeData → Bool) :
    l.find? p = (l.filter p).head? := by
  induction l with
  | nil => rfl
  | cons a rest ih =>
    by_cases h : p a
    · simp [h, List.filter_cons]
    · rw [List.find?_cons_of_neg _ h, List.filter_cons, if_neg h, ih]

theorem find?_isSome_of_mem (nodes : List NodeData) (i : String)
    (h : i ∈ nodes.map (fun n => n.id)) :
    ∃ n, nodes.find? (fun m => m.id == i) = some n ∧ n ∈ nodes ∧ n.id = i := by
  induction nodes with
  | nil => simp at h
  | cons a rest ih =>
    by_cases ha : a.id = i
    · exact ⟨a, by simp [List.find?_cons, beq_iff_eq, ha], List.mem_cons_self a rest, ha⟩
    · have hb : (a.id == i) = false := beq_eq_false_iff_ne.2 ha
      simp only [List.map_cons, List.mem_cons] at h
      rcases h with h | h
      · exact absurd h.symm ha
      · obtain ⟨n, h1, h2, h3⟩ := ih h
        exact ⟨n, by simp [List.find?_cons, hb, h1],
          List.mem_cons_of_mem a h2, h3⟩

/-! ## Lemmas about the depth-first traversal -/

theorem dfs_zero (g : List (String × List String)) (u : String) (order : List String) :
    dfs g 0 u order = order := rfl

theorem dfsList_eq_foldl (g : List (String × List String)) (fuel : Nat)
    (vs order : List String) :
    vs.foldl (fun acc v => dfs g fuel v acc) order = dfsList g fuel vs order := by
  induction vs generalizing order with
  | nil => rfl
  | cons v vs ih => simp [List.foldl_cons, dfsList, ih]

theorem dfs_succ (g : List (String × List String)) (fuel : Nat) (u : String)
    (order : List String) :
    dfs g (fuel + 1) u order =
      if u ∈ order then order else dfsList g fuel (adjGet g u) (order ++ [u]) := by
  rw [dfs, dfsList_eq_foldl]

theorem contains_not_iff (o : List String) (x : String) :
    (!(o.contains x)) = true ↔ x ∉ o := by
  simp [List.contains]

theorem filter_length_le (U : List String) (p q : String → Bool)
    (h : ∀ x ∈ U, p x = true → q x = true) :
    (U.filter p).length ≤ (U.filter q).length := by
  induction U with
  | nil => exact Nat.le_refl 0
  | cons a rest ih =>
    have ih' := ih (fun x hx => h x (List.mem_cons_of_mem a hx))
    by_cases hp : p a
    · have hq := h a (List.mem_cons_self a rest) hp
      simpa [List.filter_cons, hp, hq] using Nat.succ_le_succ ih'
    · simp only [Bool.not_eq_true] at hp
      by_cases hq : q a
      · simpa [List.filter_cons, hp, hq] using Nat.le_succ_of_le ih'
      · simp only [Bool.not_eq_true] at hq
        simpa [List.filter_cons, hp, hq] using ih'

theorem unvisited_le_of_subset (U o₁ o₂ : List String) (h : ∀ x, x ∈ o₁ → x ∈ o₂) :
    unvisited U o₂ ≤ unvisited U o₁ := by
  refine filter_length_le U _ _ (fun x _ hx => ?_)
  rw [contains_not_iff] at hx ⊢
  exact fun hm => hx (h x hm)

theorem filter_length_lt_of_mem (l : List String) (q : String → Bool) (u : String)
    (hu : u ∈ l) (hq : q u = false) : (l.filter q).length < l.length := by
  induction l with
  | nil => simp at hu
  | cons a rest ih =>
    rcases List.mem_cons.1 hu with h | h
    · subst h
      rw [List.filter_cons, if_neg (by simp [hq])]
      exact Nat.lt_succ_of_le (List.length_filter_le q rest)
    · rw [List.filter_cons]
      by_cases hqa : q a
      · rw [if_pos (by simp [hqa])]
        exact Nat.succ_lt_succ (ih h)
      · rw [if_neg (by simp [hqa])]
        exact Nat.lt_succ_of_le (Nat.le_of_lt (ih h))

theorem unvisited_lt_append (U o : List String) (u : String) (hU : u ∈ U) (ho : u ∉ o) :
    unvisited U (o ++ [u]) < unvisited U o := by
  unfold unvisited
  have heq : U.filter (fun x => !((o ++ [u]).contains x)) =
      (U.filter (fun x => !(o.contains x))).filter (fun x => !(x == u)) := by
    rw [List.filter_filter]
    congr 1
    funext x
    by_cases h1 : x = u
    · subst h1
      simp [List.contains]
    · by_cases h2 : x ∈ o <;> simp [List.contains, h1, h2]
  rw [heq]
  refine filter_length_lt_of_mem _ _ u ?_ (by simp)
  rw [List.mem_filter]
  exact ⟨hU, by simpa using (contains_not_iff o u).2 ho⟩

theorem unvisited_nil (U : List String) : unvisited U [] = U.length := by
  unfold unvisited
  induction U with
  | nil => rfl
  | cons a rest ih => simp [List.filter_cons, ih]

theorem dfs_ext (g : List (String × List String)) :
    ∀ fuel u order, ∃ t, dfs g fuel u order = order ++ t := by
  intro fuel
  induction fuel with
  | zero => exact fun u order => ⟨[], by simp [dfs_zero]⟩
  | succ fuel ih =>
    have hlist : ∀ vs order, ∃ t, dfsList g fuel vs order = order ++ t := by
      intro vs
      induction vs with
      | nil => exact fun order => ⟨[], by simp [dfsList]⟩
      | cons v vs ihl =>
        intro order
        obtain ⟨t₁, h₁⟩ := ih v order
        obtain ⟨t₂, h₂⟩ := ihl (dfs g fuel v order)
        exact ⟨t₁ ++ t₂, by rw [dfsList, h₂, h₁, List.append_assoc]⟩
    intro u order
    rw [dfs_succ]
    by_cases h : u ∈ order
    · exact ⟨[], by simp [h]⟩
    · obtain ⟨t, ht⟩ := hlist (adjGet g u) (order ++ [u])
      exact ⟨u :: t, by simp [h, ht]⟩

theorem dfsList_ext (g : List (String × List String)) (fuel : Nat) :
    ∀ vs order, ∃ t, dfsList g fuel vs order = order ++ t := by
  intro vs
  induction vs with
  | nil => exact fun order => ⟨[], by simp [dfsList]⟩
  | cons v vs ihl =>
    intro order
    obtain ⟨t₁, h₁⟩ := dfs_ext g fuel v order
    obtain ⟨t₂, h₂⟩ := ihl (dfs g fuel v order)
    exact ⟨t₁ ++ t₂, by rw [dfsList, h₂, h₁, List.append_assoc]⟩

theorem mem_dfs_of_mem (g : List (String × List String)) (fuel : Nat) (u x : String)
    (order : List String) (h : x ∈ order) : x ∈ dfs g fuel u order := by
  obtain ⟨t, ht⟩ := dfs_ext g fuel u order
  rw [ht]
  exact List.mem_append_left t h

theorem mem_dfsList_of_mem (g : List (String × List String)) (fuel : Nat) (x : String)
    (vs order : List String) (h : x ∈ order) : x ∈ dfsList g fuel vs order := by
  obtain ⟨t, ht⟩ := dfsList_ext g fuel vs order
  rw [ht]
  exact List.mem_append_left t h

theorem mem_dfs_self (g : List (String × List String)) (fuel : Nat) (u : String)
    (order : List String) (hf : 1 ≤ fuel) : u ∈ dfs g fuel u order := by
  obtain ⟨fuel, rfl⟩ := Nat.exists_eq_add_of_le hf
  rw [Nat.add_comm, dfs_succ]
  by_cases h : u ∈ order
  · simp [h]
  · rw [if_neg h]
    exact mem_dfsList_of_mem g fuel u _ _ (by simp)

theorem mem_dfsList_self (g : List (String × List String)) (fuel : Nat)
    (vs order : List String) (hf : 1 ≤ fuel) : ∀ v ∈ vs, v ∈ dfsList g fuel vs order := by
  induction vs generalizing order with
  | nil => intro v hv; simp at hv
  | cons w ws ih =>
    intro v hv
    rcases List.mem_cons.1 hv with h | h
    · subst h
      exact mem_dfsList_of_mem g fuel v ws _ (mem_dfs_self g fuel v order hf)
    · exact ih (dfs g fuel w order) v h

theorem dfs_nodup (g : List (String × List String)) :
    ∀ fuel u order, order.Nodup → (dfs g fuel u order).Nodup := by
  intro fuel
  induction fuel with
  | zero => intro u order h; simpa [dfs_zero] using h
  | succ fuel ih =>
    have hlist : ∀ vs order, order.Nodup → (dfsList g fuel vs order).Nodup := by
      intro vs
      induction vs with
      | nil => intro order h; simpa [dfsList] using h
      | cons v vs ihl =>
        intro order h
        exact ihl (dfs g fuel v order) (ih v order h)
    intro u order h
    rw [dfs_succ]
    by_cases hm : u ∈ order
    · simpa [hm] using h
    · rw [if_neg hm]
      exact hlist (adjGet g u) (order ++ [u]) (by simpa [List.nodup_append] using ⟨h, hm⟩)

theorem dfs_subset (g : List (String × List String)) :
    ∀ fuel u order x, x ∈ dfs g fuel u order →
      x ∈ order ∨ x = u ∨ ∃ w, x ∈ adjGet g w := by
  intro fuel
  induction fuel with
  | zero => intro u order x h; exact Or.inl (by simpa [dfs_zero] using h)
  | succ fuel ih =>
    have hlist : ∀ vs order x, x ∈ dfsList g fuel vs order →
        x ∈ order ∨ x ∈ vs ∨ ∃ w, x ∈ adjGet g w := by
      intro vs
      induction vs with
      | nil => intro order x h; exact Or.inl (by simpa [dfsList] using h)
      | cons v vs ihl =>
        intro order x h
        rcases ihl (dfs g fuel v order) x h with h' | h' | h'
        · rcases ih v order x h' with h'' | h'' | h''
          · exact Or.inl h''
          · exact Or.inr (Or.inl (by simp [h'']))
          · exact Or.inr (Or.inr h'')
        · exact Or.inr (Or.inl (List.mem_cons_of_mem v h'))
        · exact Or.inr (Or.inr h')
    intro u order x h
    rw [dfs_succ] at h
    by_cases hm : u ∈ order
    · exact Or.inl (by simpa [hm] using h)
    · rw [if_neg hm] at h
      rcases hlist (adjGet g u) (order ++ [u]) x h with h' | h' | h'
      · rcases List.mem_append.1 h' with h'' | h''
        · exact Or.inl h''
        · exact Or.inr (Or.inl (by simpa using h''))
      · exact Or.inr (Or.inr ⟨u, h'⟩)
      · exact Or.inr (Or.inr h')

/-! ## Reachability lemmas -/

theorem RA_not_mem {g : List (String × List String)} {V : List String} {u x : String}
    (h : RA g V u x) : u ∉ V := by
  cases h with
  | refl _ h => exact h
  | step h _ _ => exact h

theorem RA_mono {g : List (String × List String)} {V₁ V₂ : List String} {u x : String}
    (h : RA g V₂ u x) (hsub : ∀ y, y ∈ V₁ → y ∈ V₂) : RA g V₁ u x := by
  induction h with
  | refl w hw => exact RA.refl w (fun hm => hw (hsub w hm))
  | step hu hv _ ih => exact RA.step (fun hm => hu (hsub _ hm)) hv ih

theorem RA_split {g : List (String × List String)} {V : List String} {w x : String}
    (a : String) (h : RA g V w x) :
    RA g (V ++ [a]) w x ∨ x = a ∨ (a ∉ V ∧ ∃ v ∈ adjGet g a, RA g (V ++ [a]) v x) := by
  induction h with
  | refl y hy =>
    by_cases hya : y = a
    · exact Or.inr (Or.inl hya)
    · exact Or.inl (RA.refl y (by simp [hy, hya]))
  | @step u v w' hu hv hr ih =>
    rcases ih with ih' | ih' | ih'
    · by_cases hua : u = a
      · subst hua
        exact Or.inr (Or.inr ⟨hu, v, hv, ih'⟩)
      · exact Or.inl (RA.step (by simp [hu, hua]) hv ih')
    · exact Or.inr (Or.inl ih')
    · exact Or.inr (Or.inr ih')

theorem RA_propagate {g : List (String × List String)} {V V₂ : List String} {v x : String}
    (h : RA g V v x) (_hsub : ∀ y, y ∈ V → y ∈ V₂)
    (hclosed : ∀ w, w ∈ V₂ → w ∉ V → ∀ z ∈ adjGet g w, z ∈ V₂) :
    x ∈ V₂ ∨ RA g V₂ v x := by
  induction h with
  | refl y hy =>
    by_cases hyV : y ∈ V₂
    · exact Or.inl hyV
    · exact Or.inr (RA.refl y hyV)
  | @step u v' w' hu hv hr ih =>
    by_cases huV : u ∈ V₂
    · rcases ih with hx | hx
      · exact Or.inl hx
      · exact ((RA_not_mem hx) (hclosed u huV hu v' hv)).elim
    · rcases ih with hx | hx
      · exact Or.inl hx
      · exact Or.inr (RA.step huV hv hx)

/-! ## Soundness: everything the traversal visits is reachable -/

theorem dfsList_sound (g : List (String × List String)) (fuel : Nat)
    (hnode : ∀ u order x, x ∈ dfs g fuel u order → x ∈ order ∨ RA g order u x) :
    ∀ vs order x, x ∈ dfsList g fuel vs order →
      x ∈ order ∨ ∃ v ∈ vs, RA g order v x := by
  intro vs
  induction vs with
  | nil => intro order x h; exact Or.inl (by simpa [dfsList] using h)
  | cons v vs ih =>
    intro order x h
    rcases ih (dfs g fuel v order) x h with h' | ⟨w, hw, hRA⟩
    · rcases hnode v order x h' with h'' | h''
      · exact Or.inl h''
      · exact Or.inr ⟨v, List.mem_cons_self v vs, h''⟩
    · obtain ⟨t, ht⟩ := dfs_ext g fuel v order
      have hra : RA g order w x :=
        RA_mono hRA (fun y hy => by rw [ht]; exact List.mem_append_left t hy)
      exact Or.inr ⟨w, List.mem_cons_of_mem v hw, hra⟩

theorem dfs_sound (g : List (String × List String)) :
    ∀ fuel u order x, x ∈ dfs g fuel u order → x ∈ order ∨ RA g order u x := by
  intro fuel
  induction fuel with
  | zero => intro u order x h; exact Or.inl (by simpa [dfs_zero] using h)
  | succ fuel ih =>
    intro u order x h
    rw [dfs_succ] at h
    by_cases hm : u ∈ order
    · exact Or.inl (by simpa [hm] using h)
    · rw [if_neg hm] at h
      rcases dfsList_sound g fuel ih (adjGet g u) (order ++ [u]) x h with h' | ⟨v, hv, hRA⟩
      · rcases List.mem_append.1 h' with h'' | h''
        · exact Or.inl h''
        · refine Or.inr ?_
          have : x = u := by simpa using h''
          subst this
          exact RA.refl x hm
      · have hvx : RA g order v x := RA_mono hRA (fun y hy => List.mem_append_left [u] hy)
        exact Or.inr (RA.step hm hv hvx)

/-! ## Closure: a completed traversal has explored all neighbours of every
node it marked -/

theorem dfs_closed (g : List (String × List String)) (U : List String)
    (hAdjU : ∀ w z, z ∈ adjGet g w → z ∈ U) :
    ∀ fuel u order, u ∈ U → unvisited U order < fuel →
      ∀ w, w ∈ dfs g fuel u order → w ∉ order →
        ∀ z ∈ adjGet g w, z ∈ dfs g fuel u order := by
  intro fuel
  induction fuel with
  | zero => intro u order _ hc; exact absurd hc (by simp)
  | succ fuel ih =>
    have hlist : ∀ vs order, (∀ v ∈ vs, v ∈ U) → unvisited U order < fuel →
        ∀ w, w ∈ dfsList g fuel vs order → w ∉ order →
          ∀ z ∈ adjGet g w, z ∈ dfsList g fuel vs order := by
      intro vs
      induction vs with
      | nil =>
        intro order _ _ w hw hnw
        exact absurd (by simpa [dfsList] using hw) hnw
      | cons v vs ihl =>
        intro order hvs hc w hw hnw z hz
        by_cases hw2 : w ∈ dfs g fuel v order
        · have hcl := ih v order (hvs v (List.mem_cons_self v vs)) hc w hw2 hnw z hz
          exact mem_dfsList_of_mem g fuel z vs _ hcl
        · have hc₂ : unvisited U (dfs g fuel v order) ≤ unvisited U order :=
            unvisited_le_of_subset U order _ (fun y hy => mem_dfs_of_mem g fuel v y order hy)
          exact ihl (dfs g fuel v order) (fun y hy => hvs y (List.mem_cons_of_mem v hy))
            (Nat.lt_of_le_of_lt hc₂ hc) w hw hw2 z hz
    intro u order hu hc w hw hnw z hz
    rw [dfs_succ] at hw ⊢
    by_cases hm : u ∈ order
    · rw [if_pos hm] at hw
      exact absurd hw hnw
    · rw [if_neg hm] at hw ⊢
      have hlt := unvisited_lt_append U order u hu hm
      have hc' : unvisited U (order ++ [u]) < fuel := by omega
      by_cases hwu : w = u
      · subst hwu
        have hf1 : 1 ≤ fuel := by omega
        exact mem_dfsList_self g fuel (adjGet g w) (order ++ [w]) hf1 z hz
      · have hnw' : w ∉ order ++ [u] := by simp [hnw, hwu]
        exact hlist (adjGet g u) (order ++ [u]) (fun y hy => hAdjU u y hy) hc' w hw hnw' z hz

/-! ## Completeness: everything reachable while avoiding the current order
gets visited (with enough fuel) -/

theorem dfs_complete (g : List (String × List String)) (U : List String)
    (hAdjU : ∀ w z, z ∈ adjGet g w → z ∈ U) :
    ∀ fuel u order x, u ∈ U → unvisited U order < fuel →
      RA g order u x → x ∈ dfs g fuel u order := by
  intro fuel
  induction fuel with
  | zero => intro u order x _ hc; exact absurd hc (by simp)
  | succ fuel ih =>
    have hlist : ∀ vs order x, (∀ v ∈ vs, v ∈ U) → unvisited U order < fuel →
        (∃ v ∈ vs, RA g order v x) → x ∈ dfsList g fuel vs order := by
      intro vs
      induction vs with
      | nil =>
        intro order x _ _ h
        simp at h
      | cons v vs ihl =>
        intro order x hvs hc h
        rcases h with ⟨v₀, hv₀, hRA⟩
        rcases List.mem_cons.1 hv₀ with hv₀' | hv₀'
        · subst hv₀'
          exact mem_dfsList_of_mem g fuel x vs _
            (ih v₀ order x (hvs v₀ (List.mem_cons_self v₀ vs)) hc hRA)
        · have hclosed := dfs_closed g U hAdjU fuel v order (hvs v (List.mem_cons_self v vs)) hc
          have hsub : ∀ y, y ∈ order → y ∈ dfs g fuel v order :=
            fun y hy => mem_dfs_of_mem g fuel v y order hy
          rcases RA_propagate hRA hsub hclosed with hx | hx
          · exact mem_dfsList_of_mem g fuel x vs _ hx
          · have hc₂ : unvisited U (dfs g fuel v order) < fuel :=
              Nat.lt_of_le_of_lt (unvisited_le_of_subset U order _ hsub) hc
            exact ihl (dfs g fuel v order) x (fun y hy => hvs y (List.mem_cons_of_mem v hy))
              hc₂ ⟨v₀, hv₀', hx⟩
    intro u order x hu hc hRA
    have hm : u ∉ order := RA_not_mem hRA
    rw [dfs_succ, if_neg hm]
    have hlt := unvisited_lt_append U order u hu hm
    have hc' : unvisited U (order ++ [u]) < fuel := by omega
    cases hRA with
    | refl => exact mem_dfsList_of_mem g fuel u _ _ (by simp)
    | @step _ v _ h hv hr =>
      rcases RA_split u hr with hsp | hsp | ⟨_, v', hv', hsp⟩
      · exact hlist (adjGet g u) (order ++ [u]) x (fun y hy => hAdjU u y hy) hc' ⟨v, hv, hsp⟩
      · subst hsp
        exact mem_dfsList_of_mem g fuel x _ _ (by simp)
      · exact hlist (adjGet g u) (order ++ [u]) x (fun y hy => hAdjU u y hy) hc' ⟨v', hv', hsp⟩

/-! ## Stability: once the fuel covers the unvisited measure, adding fuel
never changes the result, i.e. the recursion has terminated -/

theorem dfs_stable (g : List (String × List String)) (U : List String)
    (hAdjU : ∀ w z, z ∈ adjGet g w → z ∈ U) :
    ∀ fuel u order, u ∈ U → unvisited U order < fuel →
      dfs g (fuel + 1) u order = dfs g fuel u order := by
  intro fuel
  induction fuel with
  | zero => intro u order _ hc; exact absurd hc (by simp)
  | succ fuel ih =>
    have hlist : ∀ vs order, (∀ v ∈ vs, v ∈ U) → unvisited U order < fuel →
        dfsList g (fuel + 1) vs order = dfsList g fuel vs order := by
      intro vs
      induction vs with
      | nil => intro order _ _; rfl
      | cons v vs ihl =>
        intro order hvs hc
        show dfsList g (fuel + 1) vs (dfs g (fuel + 1) v order) =
          dfsList g fuel vs (dfs g fuel v order)
        rw [ih v order (hvs v (List.mem_cons_self v vs)) hc]
        exact ihl (dfs g fuel v order) (fun y hy => hvs y (List.mem_cons_of_mem v hy))
          (Nat.lt_of_le_of_lt
            (unvisited_le_of_subset U order _ (fun y hy => mem_dfs_of_mem g fuel v y order hy))
            hc)
    intro u order hu hc
    rw [dfs_succ, dfs_succ]
    by_cases hm : u ∈ order
    · simp [hm]
    · rw [if_neg hm, if_neg hm]
      have hlt := unvisited_lt_append U order u hu hm
      have hc' : unvisited U (order ++ [u]) < fuel := by omega
      exact hlist (adjGet g u) (order ++ [u]) (fun y hy => hAdjU u y hy) hc'

theorem dfs_stable_add (g : List (String × List String)) (U : List String)
    (hAdjU : ∀ w z, z ∈ adjGet g w → z ∈ U) (fuel : Nat) (u : String)
    (order : List String) (hu : u ∈ U) (hc : unvisited U order < fuel) :
    ∀ k, dfs g (fuel + k) u order = dfs g fuel u order := by
  intro k
  induction k with
  | zero => rfl
  | succ k ihk =>
    have hc' : unvisited U order < fuel + k := Nat.lt_of_lt_of_le hc (Nat.le_add_right fuel k)
    calc dfs g (fuel + (k + 1)) u order = dfs g ((fuel + k) + 1) u order := rfl
      _ = dfs g (fuel + k) u order := dfs_stable g U hAdjU (fuel + k) u order hu hc'
      _ = dfs g fuel u order := ihk

/-! ## Bridging adjacency reachability and edge-list reachability -/

theorem adjGet_mem_iff (nodes : List NodeData) (edges : List Edge)
    (g : List (String × List String)) (hg : buildGraphAux edges (initGraph nodes) = .ok g)
    (u v : String) : v ∈ adjGet g u ↔ ∃ e ∈ edges, e.source = u ∧ e.target = v := by
  obtain ⟨-, h2⟩ := buildGraphAux_ok edges _ g hg
  rw [h2 u, adjGet_initGraph]
  simp only [List.nil_append, List.mem_map, List.mem_filter, beq_iff_eq]
  constructor
  · rintro ⟨e, ⟨he, hs⟩, ht⟩
    exact ⟨e, he, hs, ht⟩
  · rintro ⟨e, he, hs, ht⟩
    exact ⟨e, ⟨he, hs⟩, ht⟩

theorem RA_nil_iff_Reaches (nodes : List NodeData) (edges : List Edge)
    (g : List (String × List String)) (hg : buildGraphAux edges (initGraph nodes) = .ok g)
    (u x : String) : RA g [] u x ↔ Reaches edges u x := by
  constructor
  · intro h
    induction h with
    | refl y _ => exact Reaches.refl y
    | @step a v w h hv hr ih =>
      obtain ⟨e, he, hs, ht⟩ := (adjGet_mem_iff nodes edges g hg a v).1 hv
      exact Reaches.step e he hs (by rw [ht]; exact ih)
  · intro h
    induction h with
    | refl y => exact RA.refl y (by simp)
    | @step a w e he hs hr ih =>
      exact RA.step (by simp) ((adjGet_mem_iff nodes edges g hg a e.target).2 ⟨e, he, hs, rfl⟩) ih

/-! ## Branch equations for the node executors and the loop -/

theorem runNode_notFound (R : RetrievalOracle) (W : WebSearchOracle) (L : LlmOracle)
    (nodes : List NodeData) (cfgs : List (String × NodeConfig)) (state : ExecutionState)
    (id : String) (h : nodes.find? (fun m => m.id == id) = none) :
    runNode R W L nodes cfgs state id = (.error (.nodeNotFound id), []) := by
  unfold runNode
  rw [h]

theorem runNode_userQuery (R : RetrievalOracle) (W : WebSearchOracle) (L : LlmOracle)
    (nodes : List NodeData) (cfgs : List (String × NodeConfig)) (state : ExecutionState)
    (id : String) (n : NodeData) (hfind : nodes.find? (fun m => m.id == id) = some n)
    (hct : n.componentType = "userQuery") :
    runNode R W L nodes cfgs state id = (.ok state, [.nodeVisited id n.componentType]) := by
  unfold runNode
  rw [hfind]
  simp [hct]

theorem runNode_output (R : RetrievalOracle) (W : WebSearchOracle) (L : LlmOracle)
    (nodes : List NodeData) (cfgs : List (String × NodeConfig)) (state : ExecutionState)
    (id : String) (n : NodeData) (hfind : nodes.find? (fun m => m.id == id) = some n)
    (hct : n.componentType = "output") :
    runNode R W L nodes cfgs state id = (.ok state, [.nodeVisited id n.componentType]) := by
  unfold runNode
  rw [hfind]
  simp [hct]

theorem runNode_other (R : RetrievalOracle) (W : WebSearchOracle) (L : LlmOracle)
    (nodes : List NodeData) (cfgs : List (String × NodeConfig)) (state : ExecutionState)
    (id : String) (n : NodeData) (hfind : nodes.find? (fun m => m.id == id) = some n)
    (h1 : n.componentType ≠ "userQuery") (h2 : n.componentType ≠ "knowledgeBase")
    (h3 : n.componentType ≠ "llmEngine") (h4 : n.componentType ≠ "output") :
    runNode R W L nodes cfgs state id = (.ok state, [.nodeVisited id n.componentType]) := by
  unfold runNode
  rw [hfind]
  have b1 : (n.componentType == "userQuery") = false := beq_eq_false_iff_ne.2 h1
  have b2 : (n.componentType == "knowledgeBase") = false := beq_eq_false_iff_ne.2 h2
  have b3 : (n.componentType == "llmEngine") = false := beq_eq_false_iff_ne.2 h3
  have b4 : (n.componentType == "output") = false := beq_eq_false_iff_ne.2 h4
  simp [b1, b2, b3, b4]

theorem runNode_knowledgeBase (R : RetrievalOracle) (W : WebSearchOracle) (L : LlmOracle)
    (nodes : List NodeData) (cfgs : List (String × NodeConfig)) (state : ExecutionState)
    (id : String) (n : NodeData) (hfind : nodes.find? (fun m => m.id == id) = some n)
    (hct : n.componentType = "knowledgeBase") :
    runNode R W L nodes cfgs state id =
      (match R ((cfgOf cfgs id).collectionName.getD "default") state.query
          ((cfgOf cfgs id).embeddingModel.getD "openai") 3 with
       | .ok results =>
         .ok { state with
               context := some (String.intercalate "\n\n" (results.map (fun r => r.content))) }
       | .error _ => .ok { state with context := none },
       [.nodeVisited id n.componentType,
        .retrievalCall ((cfgOf cfgs id).collectionName.getD "default") state.query
          ((cfgOf cfgs id).embeddingModel.getD "openai") 3]) := by
  unfold runNode
  rw [hfind]
  simp [hct]

theorem runNode_llmEngine (R : RetrievalOracle) (W : WebSearchOracle) (L : LlmOracle)
    (nodes : List NodeData) (cfgs : List (String × NodeConfig)) (state : ExecutionState)
    (id : String) (n : NodeData) (hfind : nodes.find? (fun m => m.id == id) = some n)
    (hct : n.componentType = "llmEngine") :
    runNode R W L nodes cfgs state id =
      (match (generate_response W L state.query state.context (cfgOf cfgs id).systemPrompt
          ((cfgOf cfgs id).provider.getD "openai") ((cfgOf cfgs id).model.getD "gpt-4")
          ((cfgOf cfgs id).temperature.getD (7 / 10)) ((cfgOf cfgs id).enableWebSearch.getD false)
          ((cfgOf cfgs id).searchProvider.getD "serpapi")).1 with
       | .ok res =>
         .ok { state with
               response := some res.response
               metadata := some ⟨res.model, res.web_context⟩ }
       | .error e => .error (.external e),
       .nodeVisited id n.componentType ::
         (generate_response W L state.query state.context (cfgOf cfgs id).systemPrompt
           ((cfgOf cfgs id).provider.getD "openai") ((cfgOf cfgs id).model.getD "gpt-4")
           ((cfgOf cfgs id).temperature.getD (7 / 10)) ((cfgOf cfgs id).enableWebSearch.getD false)
           ((cfgOf cfgs id).searchProvider.getD "serpapi")).2) := by
  unfold runNode
  rw [hfind]
  simp [hct]

theorem runNodes_cons_ok (R : RetrievalOracle) (W : WebSearchOracle) (L : LlmOracle)
    (nodes : List NodeData) (cfgs : List (String × NodeConfig)) (id : String)
    (rest : List String) (state s' : ExecutionState) (evs evs' : List Event)
    (h : runNode R W L nodes cfgs state id = (.ok s', evs')) :
    runNodes R W L nodes cfgs (id :: rest) state evs =
      runNodes R W L nodes cfgs rest s' (evs ++ evs') := by
  rw [runNodes, h]

theorem runNodes_cons_err (R : RetrievalOracle) (W : WebSearchOracle) (L : LlmOracle)
    (nodes : List NodeData) (cfgs : List (String × NodeConfig)) (id : String)
    (rest : List String) (state : ExecutionState) (e : WfError) (evs evs' : List Event)
    (h : runNode R W L nodes cfgs state id = (.error e, evs')) :
    runNodes R W L nodes cfgs (id :: rest) state evs = (.error e, evs ++ evs') := by
  rw [runNodes, h]

theorem runNodes_shift (R : RetrievalOracle) (W : WebSearchOracle) (L : LlmOracle)
    (nodes : List NodeData) (cfgs : List (String × NodeConfig)) :
    ∀ (ids : List String) (state : ExecutionState) (evs : List Event),
      runNodes R W L nodes cfgs ids state evs =
        ((runNodes R W L nodes cfgs ids state []).1,
         evs ++ (runNodes R W L nodes cfgs ids state []).2) := by
  intro ids
  induction ids with
  | nil => intro state evs; simp [runNodes]
  | cons id rest ih =>
    intro state evs
    match hr : runNode R W L nodes cfgs state id with
    | (.ok s', evs') =>
      rw [runNodes_cons_ok R W L nodes cfgs id rest state s' evs evs' hr,
        runNodes_cons_ok R W L nodes cfgs id rest state s' [] evs' hr,
        ih s' (evs ++ evs'), ih s' ([] ++ evs')]
      simp
    | (.error e, evs') =>
      rw [runNodes_cons_err R W L nodes cfgs id rest state e evs evs' hr,
        runNodes_cons_err R W L nodes cfgs id rest state e [] evs' hr]
      simp

/-! ## Branch equations for the generation service -/

theorem buildPrompt_none (q : String) : buildPrompt q none = q := rfl

theorem buildPrompt_empty (q : String) : buildPrompt q (some "") = q := by
  simp [buildPrompt]

theorem buildPrompt_some (q c : String) (hc : c ≠ "") :
    buildPrompt q (some c) = "Context:\n" ++ c ++ "\n\nQuestion: " ++ q := by
  simp [buildPrompt, hc]

theorem llmDispatch_openai (L : LlmOracle) (prompt : String) (sp : Option String)
    (model : String) (temp : Rat) (wc : Option String) :
    llmDispatch L prompt sp "openai" model temp wc =
      (match L (.openai model (mkMessages sp prompt) temp) with
       | .ok content => .ok ⟨content, model, wc⟩
       | .error e => .error e,
       [.llmCall (.openai model (mkMessages sp prompt) temp)]) := by
  simp [llmDispatch]

theorem generate_response_noWS (W : WebSearchOracle) (L : LlmOracle)
    (q : String) (c : Option String) (sp : Option String) (prov model : String)
    (temp : Rat) (spv : String) :
    generate_response W L q c sp prov model temp false spv =
      llmDispatch L (buildPrompt q c) sp prov model temp none := rfl

theorem generate_response_WS (W : WebSearchOracle) (L : LlmOracle)
    (q : String) (c : Option String) (sp : Option String) (prov model : String)
    (temp : Rat) (spv w : String) (hw : W q spv = .ok w) :
    generate_response W L q c sp prov model temp true spv =
      ((llmDispatch L ("Web Search Results:\n" ++ w ++ "\n\n" ++ buildPrompt q c)
          sp prov model temp (some w)).1,
       .webSearchCall q spv ::
         (llmDispatch L ("Web Search Results:\n" ++ w ++ "\n\n" ++ buildPrompt q c)
           sp prov model temp (some w)).2) := by
  simp [generate_response, hw]

theorem visitedIds_append (a b : List Event) :
    visitedIds (a ++ b) = visitedIds a ++ visitedIds b := by
  simp [visitedIds]

/-- Inversion of a successful resolver run: the adjacency build succeeded,
a userQuery node was found, its id passed the truthiness check, and the
order is the traversal from it. -/
theorem build_ok_inv (nodes : List NodeData) (edges : List Edge) (order : List String)
    (h : build_execution_order nodes edges = .ok order) :
    ∃ g n₀, buildGraphAux edges (initGraph nodes) = .ok g ∧
      nodes.find? (fun n => n.componentType == "userQuery") = some n₀ ∧
      n₀.id ≠ "" ∧
      order = dfs g (dfsDefaultFuel nodes edges) n₀.id [] := by
  unfold build_execution_order build_execution_order_fuel at h
  cases hg : buildGraphAux edges (initGraph nodes) with
  | error e =>
    rw [hg] at h
    exact absurd h (by simp)
  | ok g =>
    rw [hg] at h
    cases hfind : nodes.find? (fun n => n.componentType == "userQuery") with
    | none =>
      rw [hfind] at h
      exact absurd h (by simp)
    | some n₀ =>
      rw [hfind] at h
      by_cases hid : n₀.id = ""
      · simp [hid] at h
      · simp only [hid, if_false, if_neg hid] at h
        simp only [Except.ok.injEq] at h
        exact ⟨g, n₀, rfl, rfl, hid, h.symm⟩

/-- A found node whose tag is not llmEngine always executes without error,
and its events show exactly one loop iteration. -/
theorem runNode_ok_of_not_llm (R : RetrievalOracle) (W : WebSearchOracle) (L : LlmOracle)
    (nodes : List NodeData) (cfgs : List (String × NodeConfig)) (state : ExecutionState)
    (i : String) (n : NodeData) (hfind : nodes.find? (fun m => m.id == i) = some n)
    (hll : n.componentType ≠ "llmEngine") :
    ∃ s' evs', runNode R W L nodes cfgs state i = (.ok s', evs') ∧ visitedIds evs' = [i] := by
  by_cases h1 : n.componentType = "userQuery"
  · exact ⟨state, _, runNode_userQuery R W L nodes cfgs state i n hfind h1, rfl⟩
  by_cases h2 : n.componentType = "knowledgeBase"
  · rw [runNode_knowledgeBase R W L nodes cfgs state i n hfind h2]
    rcases R ((cfgOf cfgs i).collectionName.getD "default") state.query
        ((cfgOf cfgs i).embeddingModel.getD "openai") 3 with msg | results
    · exact ⟨_, _, rfl, rfl⟩
    · exact ⟨_, _, rfl, rfl⟩
  by_cases h4 : n.componentType = "output"
  · exact ⟨state, _, runNode_output R W L nodes cfgs state i n hfind h4, rfl⟩
  · exact ⟨state, _, runNode_other R W L nodes cfgs state i n hfind h1 h2 hll h4, rfl⟩

/-- A found llmEngine node whose generation call fails (and whose web
search, when enabled, succeeds) aborts with the propagated message; its
events show exactly one loop iteration. -/
theorem runNode_llm_fails (R : RetrievalOracle) (W : WebSearchOracle) (L : LlmOracle)
    (nodes : List NodeData) (cfgs : List (String × NodeConfig)) (state : ExecutionState)
    (i : String) (n : NodeData) (msg : String)
    (hfind : nodes.find? (fun m => m.id == i) = some n)
    (hct : n.componentType = "llmEngine")
    (hllm : ∀ c, L c = .error msg)
    (hweb : ∀ q' p, ∃ w, W q' p = .ok w) :
    ∃ evs', runNode R W L nodes cfgs state i = (.error (.external msg), evs') ∧
      visitedIds evs' = [i] := by
  rw [runNode_llmEngine R W L nodes cfgs state i n hfind hct]
  cases hws : (cfgOf cfgs i).enableWebSearch.getD false with
  | false =>
    rw [generate_response_noWS]
    unfold llmDispatch
    by_cases hprov : ((cfgOf cfgs i).provider.getD "openai" == "openai") = true
    · rw [if_pos hprov]
      simp only [hllm]
      exact ⟨_, rfl, rfl⟩
    · rw [if_neg hprov]
      simp only [hllm]
      exact ⟨_, rfl, rfl⟩
  | true =>
    obtain ⟨w, hw⟩ := hweb state.query ((cfgOf cfgs i).searchProvider.getD "serpapi")
    rw [generate_response_WS W L state.query state.context (cfgOf cfgs i).systemPrompt
      ((cfgOf cfgs i).provider.getD "openai") ((cfgOf cfgs i).model.getD "gpt-4")
      ((cfgOf cfgs i).temperature.getD (7 / 10)) ((cfgOf cfgs i).searchProvider.getD "serpapi")
      w hw]
    unfold llmDispatch
    by_cases hprov : ((cfgOf cfgs i).provider.getD "openai" == "openai") = true
    · rw [if_pos hprov]
      simp only [hllm]
      exact ⟨_, rfl, rfl⟩
    · rw [if_neg hprov]
      simp only [hllm]
      exact ⟨_, rfl, rfl⟩

/-! ## Claim theorems -/

/-- Counterexample to claim C1 as stated: a graph with exactly one
query-source node whose id is the empty string.  Python's
`if not start_node:` truthiness check is true for the falsy empty id, so
the source raises the missing-entry ValueError and no order containing the
entry node is returned, contradicting the claim at this graph. -/
theorem C1_execution_order_counterexample :
    ([⟨"", "userQuery"⟩] : List NodeData).filter
        (fun n => n.componentType == "userQuery") = [(⟨"", "userQuery"⟩ : NodeData)] ∧
    build_execution_order [⟨"", "userQuery"⟩] [] = .error .missingEntryNode := by
  decide

/-- Claim C1 amended: for every graph whose unique query-source (userQuery)
node is the entry node and has a non-empty id (Python's truthiness check
raises the missing-entry error for an empty id, see the counterexample)
and whose edge sources reference existing node ids, the resolver succeeds
and the returned order contains the entry node first and every id
reachable from it along the edge list exactly once (Nodup plus the
membership equivalence); ids unreachable from the entry do not appear; and
the adjacency lists the traversal follows enumerate each node's outgoing
edge targets in the edge list's given order, which is the tie-break among
multiple outgoing edges.  The claim's acyclicity hypothesis is not needed:
the visited check alone bounds the traversal, so the statement is proved
for cyclic graphs as well. -/
theorem C1_execution_order_correct (nodes : List NodeData) (edges : List Edge)
    (entry : NodeData)
    (hq : nodes.filter (fun n => n.componentType == "userQuery") = [entry])
    (hid : entry.id ≠ "")
    (hvalid : ∀ e ∈ edges, e.source ∈ nodes.map (fun n => n.id)) :
    ∃ order, build_execution_order nodes edges = .ok order ∧
      order.head? = some entry.id ∧
      order.Nodup ∧
      (∀ x, x ∈ order ↔ Reaches edges entry.id x) ∧
      (∀ g, buildGraphAux edges (initGraph nodes) = .ok g →
        ∀ u, adjGet g u = (edges.filter (fun e => e.source == u)).map (fun e => e.target)) := by
  obtain ⟨g, hg⟩ := buildGraphAux_isOk edges (initGraph nodes)
    (fun e he => by rw [map_fst_initGraph]; exact hvalid e he)
  have hchar := buildGraphAux_ok edges (initGraph nodes) g hg
  have hadj : ∀ u, adjGet g u = (edges.filter (fun e => e.source == u)).map (fun e => e.target) := by
    intro u
    rw [hchar.2 u, adjGet_initGraph]
    rfl
  have hfind : nodes.find? (fun n => n.componentType == "userQuery") = some entry := by
    rw [find?_filter_head, hq]
    rfl
  have hentry : entry ∈ nodes := by
    have : entry ∈ nodes.filter (fun n => n.componentType == "userQuery") := by
      rw [hq]; exact List.mem_cons_self entry []
    exact (List.mem_filter.1 this).1
  -- the universe of markable ids and the fuel bound
  have hAdjU : ∀ w z, z ∈ adjGet g w →
      z ∈ nodes.map (fun n => n.id) ++ edges.map (fun e => e.target) := by
    intro w z hz
    rw [hadj w] at hz
    obtain ⟨e, he, rfl⟩ := List.mem_map.1 hz
    exact List.mem_append_right _ (List.mem_map.2 ⟨e, List.mem_of_mem_filter he, rfl⟩)
  have huU : entry.id ∈ nodes.map (fun n => n.id) ++ edges.map (fun e => e.target) :=
    List.mem_append_left _ (List.mem_map.2 ⟨entry, hentry, rfl⟩)
  have hcount : unvisited (nodes.map (fun n => n.id) ++ edges.map (fun e => e.target)) [] <
      dfsDefaultFuel nodes edges := by
    rw [unvisited_nil]
    simp [dfsDefaultFuel]
  have hbuild : build_execution_order nodes edges =
      .ok (dfs g (dfsDefaultFuel nodes edges) entry.id []) := by
    unfold build_execution_order build_execution_order_fuel
    rw [hg, hfind]
    simp [hid]
  refine ⟨dfs g (dfsDefaultFuel nodes edges) entry.id [], hbuild, ?_, ?_, ?_, ?_⟩
  · -- the entry node comes first
    have h1 : dfs g (dfsDefaultFuel nodes edges) entry.id [] =
        dfsList g (nodes.length + edges.length) (adjGet g entry.id) [entry.id] := by
      show dfs g (nodes.length + edges.length + 1) entry.id [] = _
      rw [dfs_succ, if_neg (List.not_mem_nil entry.id)]
      rfl
    obtain ⟨t, ht⟩ := dfsList_ext g (nodes.length + edges.length) (adjGet g entry.id) [entry.id]
    rw [h1, ht]
    rfl
  · exact dfs_nodup g (dfsDefaultFuel nodes edges) entry.id [] List.nodup_nil
  · intro x
    rw [← RA_nil_iff_Reaches nodes edges g hg entry.id x]
    constructor
    · intro hx
      rcases dfs_sound g (dfsDefaultFuel nodes edges) entry.id [] x hx with h | h
      · exact absurd h (List.not_mem_nil x)
      · exact h
    · intro hx
      exact dfs_complete g _ hAdjU (dfsDefaultFuel nodes edges) entry.id [] x huU hcount hx
  · intro g' hg' u
    rw [hg] at hg'
    cases hg'
    exact hadj u

/-- Witness for C1 on a concrete graph: entry A, chain A to B, isolated
node E; the order is exactly the reachable part in edge order. -/
theorem C1_execution_order_correct_witness :
    ([⟨"A", "userQuery"⟩, ⟨"B", "output"⟩, ⟨"E", "output"⟩] :
        List NodeData).filter (fun n => n.componentType == "userQuery") =
      [(⟨"A", "userQuery"⟩ : NodeData)] ∧
    (NodeData.mk "A" "userQuery").id ≠ "" ∧
    (∀ e ∈ ([⟨"A", "B"⟩] : List Edge), e.source ∈
      ([⟨"A", "userQuery"⟩, ⟨"B", "output"⟩, ⟨"E", "output"⟩] : List NodeData).map
        (fun n => n.id)) ∧
    ∃ order, build_execution_order
        [⟨"A", "userQuery"⟩, ⟨"B", "output"⟩, ⟨"E", "output"⟩] [⟨"A", "B"⟩] = .ok order ∧
      order.head? = some (NodeData.mk "A" "userQuery").id ∧
      order.Nodup ∧
      (∀ x, x ∈ order ↔ Reaches [⟨"A", "B"⟩] (NodeData.mk "A" "userQuery").id x) ∧
      (∀ g, buildGraphAux [⟨"A", "B"⟩]
          (initGraph [⟨"A", "userQuery"⟩, ⟨"B", "output"⟩, ⟨"E", "output"⟩]) = .ok g →
        ∀ u, adjGet g u =
          (([⟨"A", "B"⟩] : List Edge).filter (fun e => e.source == u)).map
            (fun e => e.target)) :=
  ⟨by decide, by decide, by decide,
    C1_execution_order_correct _ _ (NodeData.mk "A" "userQuery") (by decide) (by decide)
      (by decide)⟩

/-- Counterexample to claim C5: a two-node graph whose entry node A lies on
the cycle A-B-A (both edges are in the list, and each endpoint reaches the
other), yet the traversal terminates and the resolver returns the order
A, B: the visited check skips the revisit of A instead of looping. -/
theorem C5_cycle_counterexample :
    Reaches [⟨"A", "B"⟩, ⟨"B", "A"⟩] "A" "B" ∧
    Reaches [⟨"A", "B"⟩, ⟨"B", "A"⟩] "B" "A" ∧
    build_execution_order [⟨"A", "userQuery"⟩, ⟨"B", "output"⟩]
      [⟨"A", "B"⟩, ⟨"B", "A"⟩] = .ok ["A", "B"] :=
  ⟨Reaches.step (Edge.mk "A" "B") (by decide) rfl (Reaches.refl "B"),
   Reaches.step (Edge.mk "B" "A") (by decide) rfl (Reaches.refl "A"),
   by decide⟩

/-- Claim C5 amended: the resolver's traversal terminates on every finite
graph, including graphs with a cycle reachable from the entry node,
because already-visited nodes are skipped.  Formally, the fuelled
recursion is stable: the default fuel already exceeds the number of
markable ids, and adding any amount of extra fuel never changes
build_execution_order's result. -/
theorem C5_resolver_terminates (nodes : List NodeData) (edges : List Edge) (k : Nat) :
    build_execution_order_fuel nodes edges (dfsDefaultFuel nodes edges + k) =
      build_execution_order nodes edges := by
  unfold build_execution_order build_execution_order_fuel
  cases hg : buildGraphAux edges (initGraph nodes) with
  | error e => rfl
  | ok g =>
    cases hfind : nodes.find? (fun n => n.componentType == "userQuery") with
    | none => rfl
    | some n =>
      have hadj : ∀ u, adjGet g u =
          (edges.filter (fun e => e.source == u)).map (fun e => e.target) := by
        intro u
        rw [(buildGraphAux_ok edges _ g hg).2 u, adjGet_initGraph]
        rfl
      have hAdjU : ∀ w z, z ∈ adjGet g w →
          z ∈ nodes.map (fun n => n.id) ++ edges.map (fun e => e.target) := by
        intro w z hz
        rw [hadj w] at hz
        obtain ⟨e, he, rfl⟩ := List.mem_map.1 hz
        exact List.mem_append_right _ (List.mem_map.2 ⟨e, List.mem_of_mem_filter he, rfl⟩)
      have hnU : n.id ∈ nodes.map (fun n => n.id) ++ edges.map (fun e => e.target) :=
        List.mem_append_left _ (List.mem_map.2 ⟨n, List.mem_of_find?_eq_some hfind, rfl⟩)
      have hcount : unvisited (nodes.map (fun n => n.id) ++ edges.map (fun e => e.target)) [] <
          dfsDefaultFuel nodes edges := by
        rw [unvisited_nil]
        simp [dfsDefaultFuel]
      show (if n.id = "" then (.error .missingEntryNode : Except WfError (List String))
          else .ok (dfs g (dfsDefaultFuel nodes edges + k) n.id [])) =
        (if n.id = "" then .error .missingEntryNode
          else .ok (dfs g (dfsDefaultFuel nodes edges) n.id []))
      by_cases hid : n.id = ""
      · rw [if_pos hid, if_pos hid]
      · rw [if_neg hid, if_neg hid,
          dfs_stable_add g _ hAdjU (dfsDefaultFuel nodes edges) n.id [] hnU hcount k]

/-- Claim C2: for every graph with zero userQuery nodes (whose edge sources
reference existing node ids, the graph invariant), execute_workflow fails
with the missing-entry error and the event log is empty: no retrieval,
generation or web-search capability is invoked and no node executor runs,
whatever the oracles are. -/
theorem C2_missing_entry (R : RetrievalOracle) (W : WebSearchOracle) (L : LlmOracle)
    (q : String) (nodes : List NodeData) (edges : List Edge)
    (cfgs : List (String × NodeConfig))
    (hnone : ∀ n ∈ nodes, n.componentType ≠ "userQuery")
    (hvalid : ∀ e ∈ edges, e.source ∈ nodes.map (fun n => n.id)) :
    execute_workflow R W L q nodes edges cfgs = (.error .missingEntryNode, []) := by
  obtain ⟨g, hg⟩ := buildGraphAux_isOk edges (initGraph nodes)
    (fun e he => by rw [map_fst_initGraph]; exact hvalid e he)
  have hfind : nodes.find? (fun n => n.componentType == "userQuery") = none :=
    List.find?_eq_none.2 (fun n hn => by simpa [beq_iff_eq] using hnone n hn)
  unfold execute_workflow build_execution_order build_execution_order_fuel
  rw [hg, hfind]

/-- Witness for C2: a single output node, no edges; the run fails before
any executor or capability is touched. -/
theorem C2_missing_entry_witness :
    (∀ n ∈ ([⟨"A", "output"⟩] : List NodeData), n.componentType ≠ "userQuery") ∧
    (∀ e ∈ ([] : List Edge), e.source ∈
      ([⟨"A", "output"⟩] : List NodeData).map (fun n => n.id)) ∧
    execute_workflow (fun _ _ _ _ => .error "r") (fun _ _ => .error "w")
      (fun _ => .error "l") "q" [⟨"A", "output"⟩] [] [] =
      (.error .missingEntryNode, []) :=
  ⟨by decide, by decide,
    C2_missing_entry _ _ _ "q" [⟨"A", "output"⟩] [] [] (by decide) (by decide)⟩

/-- Claim C9: a query-source (userQuery) or output node never fails and
writes no ExecutionState field.  Part one: the executor step on such a
node returns the state unchanged with only its visit logged, for every
state and oracles.  Part two: consequently a run over a graph whose nodes
are all query-source or output nodes (with valid edges) on which the
resolver accepted the entry node succeeds and ends in the initial state,
so the response stays absent. -/
theorem C9_passthrough_nodes :
    (∀ (R : RetrievalOracle) (W : WebSearchOracle) (L : LlmOracle) (nodes : List NodeData)
        (cfgs : List (String × NodeConfig)) (state : ExecutionState) (id : String)
        (n : NodeData), nodes.find? (fun m => m.id == id) = some n →
        (n.componentType = "userQuery" ∨ n.componentType = "output") →
        runNode R W L nodes cfgs state id = (.ok state, [.nodeVisited id n.componentType])) ∧
    (∀ (R : RetrievalOracle) (W : WebSearchOracle) (L : LlmOracle) (q : String)
        (nodes : List NodeData) (edges : List Edge) (cfgs : List (String × NodeConfig))
        (order : List String),
        (∀ n ∈ nodes, n.componentType = "userQuery" ∨ n.componentType = "output") →
        (∀ e ∈ edges, e.source ∈ nodes.map (fun n => n.id) ∧
          e.target ∈ nodes.map (fun n => n.id)) →
        build_execution_order nodes edges = .ok order →
        (execute_workflow R W L q nodes edges cfgs).1 = .ok (initState q)) := by
  constructor
  · intro R W L nodes cfgs state id n hfind hct
    rcases hct with h | h
    · exact runNode_userQuery R W L nodes cfgs state id n hfind h
    · exact runNode_output R W L nodes cfgs state id n hfind h
  · intro R W L q nodes edges cfgs order hall hvalid horder
    obtain ⟨g, n₀, hg, hfind, -, horder'⟩ := build_ok_inv nodes edges order horder
    subst horder'
    have hadj : ∀ u, adjGet g u =
        (edges.filter (fun e => e.source == u)).map (fun e => e.target) := by
      intro u
      rw [(buildGraphAux_ok edges _ g hg).2 u, adjGet_initGraph]
      rfl
    have hloop : ∀ (ids : List String), (∀ i ∈ ids, i ∈ nodes.map (fun n => n.id)) →
        ∀ state evs, (runNodes R W L nodes cfgs ids state evs).1 = .ok state := by
      intro ids
      induction ids with
      | nil => intro _ state evs; rfl
      | cons i rest ih =>
        intro hsub state evs
        obtain ⟨n, hfindn, hmem, -⟩ :=
          find?_isSome_of_mem nodes i (hsub i (List.mem_cons_self i rest))
        have hstep : runNode R W L nodes cfgs state i =
            (.ok state, [.nodeVisited i n.componentType]) := by
          rcases hall n hmem with h | h
          · exact runNode_userQuery R W L nodes cfgs state i n hfindn h
          · exact runNode_output R W L nodes cfgs state i n hfindn h
        rw [runNodes_cons_ok R W L nodes cfgs i rest state state evs _ hstep]
        exact ih (fun j hj => hsub j (List.mem_cons_of_mem i hj)) state _
    have hids : ∀ x ∈ dfs g (dfsDefaultFuel nodes edges) n₀.id [],
        x ∈ nodes.map (fun n => n.id) := by
      intro x hx
      rcases dfs_subset g (dfsDefaultFuel nodes edges) n₀.id [] x hx with h | h | ⟨w, h⟩
      · exact absurd h (List.not_mem_nil x)
      · subst h
        exact List.mem_map.2 ⟨n₀, List.mem_of_find?_eq_some hfind, rfl⟩
      · rw [hadj w] at h
        obtain ⟨e, he, rfl⟩ := List.mem_map.1 h
        exact (hvalid e (List.mem_of_mem_filter he)).2
    unfold execute_workflow
    rw [horder]
    exact hloop (dfs g (dfsDefaultFuel nodes edges) n₀.id []) hids (initState q) []

/-- Witness for C9: the step on a concrete userQuery node, and a concrete
run over a userQuery node chained to an output node; the response stays
absent. -/
theorem C9_passthrough_nodes_witness :
    (([⟨"A", "userQuery"⟩] : List NodeData).find? (fun m => m.id == "A") =
        some (NodeData.mk "A" "userQuery") ∧
      runNode (fun _ _ _ _ => .error "r") (fun _ _ => .error "w") (fun _ => .error "l")
        [⟨"A", "userQuery"⟩] [] (initState "q") "A" =
        (.ok (initState "q"), [.nodeVisited "A" "userQuery"])) ∧
    (execute_workflow (fun _ _ _ _ => .error "r") (fun _ _ => .error "w")
        (fun _ => .error "l") "q" [⟨"A", "userQuery"⟩, ⟨"B", "output"⟩]
        [⟨"A", "B"⟩] []).1 = .ok (initState "q") := by
  constructor
  · exact ⟨by decide,
      C9_passthrough_nodes.1 _ _ _ _ _ _ _ (NodeData.mk "A" "userQuery")
        (by decide) (Or.inl rfl)⟩
  · exact C9_passthrough_nodes.2 _ _ _ "q" _ _ _ ["A", "B"] (by decide) (by decide)
      (by decide)

/-- Claim C10: a node in the execution order whose component-type tag is
none of userQuery, knowledgeBase, llmEngine or output is silently skipped:
the step dispatches no executor and no capability (only the loop's visit
is logged), raises no error, leaves the state unchanged, and the loop
continues with the remaining order. -/
theorem C10_unknown_type_skipped (R : RetrievalOracle) (W : WebSearchOracle) (L : LlmOracle)
    (nodes : List NodeData) (cfgs : List (String × NodeConfig)) (state : ExecutionState)
    (id : String) (n : NodeData) (rest : List String) (evs : List Event)
    (hfind : nodes.find? (fun m => m.id == id) = some n)
    (h1 : n.componentType ≠ "userQuery") (h2 : n.componentType ≠ "knowledgeBase")
    (h3 : n.componentType ≠ "llmEngine") (h4 : n.componentType ≠ "output") :
    runNode R W L nodes cfgs state id = (.ok state, [.nodeVisited id n.componentType]) ∧
    runNodes R W L nodes cfgs (id :: rest) state evs =
      runNodes R W L nodes cfgs rest state (evs ++ [.nodeVisited id n.componentType]) := by
  have hstep := runNode_other R W L nodes cfgs state id n hfind h1 h2 h3 h4
  exact ⟨hstep, runNodes_cons_ok R W L nodes cfgs id rest state state evs _ hstep⟩

/-- Witness for C10: a node tagged customType is skipped and the loop goes
on. -/
theorem C10_unknown_type_skipped_witness :
    ([⟨"X", "customType"⟩] : List NodeData).find? (fun m => m.id == "X") =
      some (NodeData.mk "X" "customType") ∧
    runNode (fun _ _ _ _ => .error "r") (fun _ _ => .error "w") (fun _ => .error "l")
      [⟨"X", "customType"⟩] [] (initState "q") "X" =
      (.ok (initState "q"), [.nodeVisited "X" "customType"]) ∧
    runNodes (fun _ _ _ _ => .error "r") (fun _ _ => .error "w") (fun _ => .error "l")
      [⟨"X", "customType"⟩] [] ["X"] (initState "q") [] =
      runNodes (fun _ _ _ _ => .error "r") (fun _ _ => .error "w") (fun _ => .error "l")
        [⟨"X", "customType"⟩] [] [] (initState "q")
        ([] ++ [.nodeVisited "X" "customType"]) := by
  refine ⟨by decide, ?_, ?_⟩
  · exact (C10_unknown_type_skipped _ _ _ _ _ _ _ (NodeData.mk "X" "customType") [] []
      (by decide) (by decide) (by decide) (by decide) (by decide)).1
  · exact (C10_unknown_type_skipped _ _ _ _ _ _ _ (NodeData.mk "X" "customType") [] []
      (by decide) (by decide) (by decide) (by decide) (by decide)).2

/-- Claim C3: when the generation capability fails on every call (and web
search, if enabled, succeeds), a run whose order reaches an llmEngine node
after non-generation nodes aborts there: execute_workflow returns the
propagated error as the run's single fatal failure, no partial result, and
the log shows that no node after the failing one was processed — the
visited iterations are exactly the prefix up to and including the
generation node. -/
theorem C3_generation_failure_aborts (R : RetrievalOracle) (W : WebSearchOracle)
    (L : LlmOracle) (q : String) (nodes : List NodeData) (edges : List Edge)
    (cfgs : List (String × NodeConfig)) (pre post : List String) (id₀ : String)
    (n₀ : NodeData) (msg : String)
    (horder : build_execution_order nodes edges = .ok (pre ++ id₀ :: post))
    (hpre : ∀ i ∈ pre, ∃ n ∈ (nodes.find? (fun m => m.id == i)).toList,
      n.componentType ≠ "llmEngine")
    (hfind : nodes.find? (fun m => m.id == id₀) = some n₀)
    (hct : n₀.componentType = "llmEngine")
    (hllm : ∀ c, L c = .error msg)
    (hweb : ∀ q' p, ∃ w, W q' p = .ok w) :
    ∃ evs, execute_workflow R W L q nodes edges cfgs = (.error (.external msg), evs) ∧
      visitedIds evs = pre ++ [id₀] := by
  unfold execute_workflow
  rw [horder]
  have main : ∀ (pre' : List String),
      (∀ i ∈ pre', ∃ n ∈ (nodes.find? (fun m => m.id == i)).toList,
        n.componentType ≠ "llmEngine") →
      ∀ state, ∃ evs, runNodes R W L nodes cfgs (pre' ++ id₀ :: post) state [] =
        (.error (.external msg), evs) ∧ visitedIds evs = pre' ++ [id₀] := by
    intro pre'
    induction pre' with
    | nil =>
      intro _ state
      obtain ⟨evs', hrun, hvis⟩ :=
        runNode_llm_fails R W L nodes cfgs state id₀ n₀ msg hfind hct hllm hweb
      refine ⟨evs', ?_, by simpa using hvis⟩
      rw [List.nil_append,
        runNodes_cons_err R W L nodes cfgs id₀ post state (.external msg) [] evs' hrun]
      rw [List.nil_append]
    | cons i rest ih =>
      intro hpre' state
      obtain ⟨n, hmem, hnll⟩ := hpre' i (List.mem_cons_self i rest)
      have hfindn : nodes.find? (fun m => m.id == i) = some n := by
        simpa using hmem
      obtain ⟨s', evs₁, hstep, hvis₁⟩ :=
        runNode_ok_of_not_llm R W L nodes cfgs state i n hfindn hnll
      obtain ⟨evs₂, hrun₂, hvis₂⟩ :=
        ih (fun j hj => hpre' j (List.mem_cons_of_mem i hj)) s'
      refine ⟨evs₁ ++ evs₂, ?_, ?_⟩
      · rw [List.cons_append,
          runNodes_cons_ok R W L nodes cfgs i (rest ++ id₀ :: post) state s' [] evs₁ hstep,
          runNodes_shift R W L nodes cfgs (rest ++ id₀ :: post) s' ([] ++ evs₁), hrun₂]
        simp
      · rw [visitedIds_append, hvis₁, hvis₂]
        rfl
  exact main pre hpre (initState q)

/-- Witness for C3: run A(userQuery) then B(llmEngine) then C(output) with
an always-failing generation oracle; the run aborts at B with the error
and C is never visited. -/
theorem C3_generation_failure_aborts_witness :
    build_execution_order [⟨"A", "userQuery"⟩, ⟨"B", "llmEngine"⟩, ⟨"C", "output"⟩]
      [⟨"A", "B"⟩, ⟨"B", "C"⟩] = .ok (["A"] ++ "B" :: ["C"]) ∧
    (∀ i ∈ ["A"], ∃ n ∈ (([⟨"A", "userQuery"⟩, ⟨"B", "llmEngine"⟩, ⟨"C", "output"⟩] :
        List NodeData).find? (fun m => m.id == i)).toList,
      n.componentType ≠ "llmEngine") ∧
    ∃ evs, execute_workflow (fun _ _ _ _ => .error "r") (fun _ _ => .ok "w")
        (fun _ => .error "boom") "q"
        [⟨"A", "userQuery"⟩, ⟨"B", "llmEngine"⟩, ⟨"C", "output"⟩]
        [⟨"A", "B"⟩, ⟨"B", "C"⟩] [] = (.error (.external "boom"), evs) ∧
      visitedIds evs = ["A"] ++ ["B"] :=
  ⟨by decide, by decide,
    C3_generation_failure_aborts _ _ _ "q" _ _ [] ["A"] ["C"] "B"
      (NodeData.mk "B" "llmEngine") "boom" (by decide) (by decide) (by decide)
      (by decide) (fun _ => rfl) (fun _ _ => ⟨"w", rfl⟩)⟩

/-- Claim C4: a retrieval failure at a knowledgeBase node is absorbed.
Part one: the step returns success with context set to absent (none).
Part two: the loop then continues with the remaining order after any
successful step.  Part three: a subsequent llmEngine node run from a state
whose context is absent passes an absent context to generation — the
prompt sent is the query alone (shown here for the empty node config). -/
theorem C4_retrieval_failure_absorbed :
    (∀ (R : RetrievalOracle) (W : WebSearchOracle) (L : LlmOracle) (nodes : List NodeData)
        (cfgs : List (String × NodeConfig)) (state : ExecutionState) (id : String)
        (n : NodeData) (msg : String),
      nodes.find? (fun m => m.id == id) = some n →
      n.componentType = "knowledgeBase" →
      R ((cfgOf cfgs id).collectionName.getD "default") state.query
        ((cfgOf cfgs id).embeddingModel.getD "openai") 3 = .error msg →
      runNode R W L nodes cfgs state id =
        (.ok { state with context := none },
         [.nodeVisited id n.componentType,
          .retrievalCall ((cfgOf cfgs id).collectionName.getD "default") state.query
            ((cfgOf cfgs id).embeddingModel.getD "openai") 3])) ∧
    (∀ (R : RetrievalOracle) (W : WebSearchOracle) (L : LlmOracle) (nodes : List NodeData)
        (cfgs : List (String × NodeConfig)) (id : String) (rest : List String)
        (state s' : ExecutionState) (evs evs' : List Event),
      runNode R W L nodes cfgs state id = (.ok s', evs') →
      runNodes R W L nodes cfgs (id :: rest) state evs =
        runNodes R W L nodes cfgs rest s' (evs ++ evs')) ∧
    (∀ (R : RetrievalOracle) (W : WebSearchOracle) (L : LlmOracle) (nodes : List NodeData)
        (cfgs : List (String × NodeConfig)) (state : ExecutionState) (id : String)
        (n : NodeData) (txt : String),
      nodes.find? (fun m => m.id == id) = some n →
      n.componentType = "llmEngine" →
      state.context = none →
      cfgOf cfgs id = {} →
      L (.openai "gpt-4" [⟨"user", state.query⟩] (7 / 10)) = .ok txt →
      runNode R W L nodes cfgs state id =
        (.ok { state with response := some txt, metadata := some ⟨"gpt-4", none⟩ },
         [.nodeVisited id n.componentType,
          .llmCall (.openai "gpt-4" [⟨"user", state.query⟩] (7 / 10))])) := by
  refine ⟨?_, ?_, ?_⟩
  · intro R W L nodes cfgs state id n msg hfind hct hfail
    rw [runNode_knowledgeBase R W L nodes cfgs state id n hfind hct, hfail]
  · intro R W L nodes cfgs id rest state s' evs evs' h
    exact runNodes_cons_ok R W L nodes cfgs id rest state s' evs evs' h
  · intro R W L nodes cfgs state id n txt hfind hct hctx hcfg hok
    rw [runNode_llmEngine R W L nodes cfgs state id n hfind hct, hcfg, hctx]
    simp only [generate_response_noWS, llmDispatch_openai, buildPrompt_none, mkMessages,
      Option.getD_none, List.nil_append, hok]

/-- Witness for C4: concrete failing retrieval on a knowledgeBase node,
the loop continuing past it, and a generation step from an absent context
receiving the bare query as prompt. -/
theorem C4_retrieval_failure_absorbed_witness :
    (([⟨"B", "knowledgeBase"⟩] : List NodeData).find? (fun m => m.id == "B") =
        some (NodeData.mk "B" "knowledgeBase") ∧
      runNode (fun _ _ _ _ => .error "down") (fun _ _ => .error "w") (fun _ => .error "l")
        [⟨"B", "knowledgeBase"⟩] [] (initState "q") "B" =
        (.ok { initState "q" with context := none },
         [.nodeVisited "B" "knowledgeBase", .retrievalCall "default" "q" "openai" 3])) ∧
    (runNodes (fun _ _ _ _ => .error "down") (fun _ _ => .error "w") (fun _ => .error "l")
        [⟨"B", "knowledgeBase"⟩] [] ["B", "Z"] (initState "q") [] =
      runNodes (fun _ _ _ _ => .error "down") (fun _ _ => .error "w") (fun _ => .error "l")
        [⟨"B", "knowledgeBase"⟩] [] ["Z"] { initState "q" with context := none }
        ([] ++ [.nodeVisited "B" "knowledgeBase", .retrievalCall "default" "q" "openai" 3])) ∧
    (([⟨"C", "llmEngine"⟩] : List NodeData).find? (fun m => m.id == "C") =
        some (NodeData.mk "C" "llmEngine") ∧
      runNode (fun _ _ _ _ => .error "down") (fun _ _ => .error "w") (fun _ => .ok "echo")
        [⟨"C", "llmEngine"⟩] [] { initState "q" with context := none } "C" =
        (.ok { { initState "q" with context := none } with
               response := some "echo", metadata := some ⟨"gpt-4", none⟩ },
         [.nodeVisited "C" "llmEngine",
          .llmCall (.openai "gpt-4" [⟨"user", "q"⟩] (7 / 10))])) := by
  refine ⟨⟨by decide, ?_⟩, ?_, ⟨by decide, ?_⟩⟩
  · exact C4_retrieval_failure_absorbed.1 _ _ _ _ _ _ "B"
      (NodeData.mk "B" "knowledgeBase") "down" (by decide) (by decide) rfl
  · exact C4_retrieval_failure_absorbed.2.1 _ _ _ _ _ "B" ["Z"] _ _ [] _
      (C4_retrieval_failure_absorbed.1 _ _ _ _ _ _ "B"
        (NodeData.mk "B" "knowledgeBase") "down" (by decide) (by decide) rfl)
  · exact C4_retrieval_failure_absorbed.2.2 _ _ _ _ _ _ "C"
      (NodeData.mk "C" "llmEngine") "echo" (by decide) (by decide) rfl (by decide) rfl

/-- Counterexample to claim C6 as stated: an empty-string context is
present (not absent), yet the prompt sent to the generation capability is
the query alone, not the context template — Python's truthiness test
treats the empty context like an absent one. -/
theorem C6_prompt_counterexample :
    (generate_response (fun _ _ => .error "na") (fun _ => .ok "resp") "q" (some "") none
        "openai" "gpt-4" (7 / 10) false "serpapi").2 =
      [.llmCall (.openai "gpt-4" [⟨"user", "q"⟩] (7 / 10))] ∧
    "q" ≠ "Context:\n" ++ "" ++ "\n\nQuestion: " ++ "q" := by
  exact ⟨rfl, by decide⟩

/-- Claim C6 amended: when the context is present and non-empty, the
prompt sent to the generation capability is the literal template
"Context:\n{context}\n\nQuestion: {query}" (with an absent or empty
context, the query alone), and with web search enabled the literal
"Web Search Results:\n{results}\n\n" is prepended ahead of that; the
events record the exact call. -/
theorem C6_prompt_template (W : WebSearchOracle) (L : LlmOracle) (q c : String)
    (sp : Option String) (temp : Rat) (spv w : String) (hc : c ≠ "")
    (hw : W q spv = .ok w) :
    (generate_response W L q (some c) sp "openai" "gpt-4" temp false spv).2 =
      [.llmCall (.openai "gpt-4"
        (mkMessages sp ("Context:\n" ++ c ++ "\n\nQuestion: " ++ q)) temp)] ∧
    (generate_response W L q none sp "openai" "gpt-4" temp false spv).2 =
      [.llmCall (.openai "gpt-4" (mkMessages sp q) temp)] ∧
    (generate_response W L q (some c) sp "openai" "gpt-4" temp true spv).2 =
      [.webSearchCall q spv,
       .llmCall (.openai "gpt-4"
         (mkMessages sp ("Web Search Results:\n" ++ w ++ "\n\n" ++
           ("Context:\n" ++ c ++ "\n\nQuestion: " ++ q))) temp)] := by
  refine ⟨?_, ?_, ?_⟩
  · rw [generate_response_noWS, buildPrompt_some q c hc, llmDispatch_openai]
  · rw [generate_response_noWS, buildPrompt_none, llmDispatch_openai]
  · rw [generate_response_WS W L q (some c) sp "openai" "gpt-4" temp spv w hw,
      buildPrompt_some q c hc, llmDispatch_openai]

/-- Witness for the amended C6 at concrete inputs. -/
theorem C6_prompt_template_witness :
    ("ctx" ≠ "" ∧ (fun (_ : String) (_ : String) => (.ok "wres" : Except String String))
        "q" "serpapi" = .ok "wres") ∧
    (generate_response (fun _ _ => .ok "wres") (fun _ => .ok "resp") "q" (some "ctx") none
        "openai" "gpt-4" (7 / 10) false "serpapi").2 =
      [.llmCall (.openai "gpt-4"
        (mkMessages none ("Context:\n" ++ "ctx" ++ "\n\nQuestion: " ++ "q")) (7 / 10))] ∧
    (generate_response (fun _ _ => .ok "wres") (fun _ => .ok "resp") "q" none none
        "openai" "gpt-4" (7 / 10) false "serpapi").2 =
      [.llmCall (.openai "gpt-4" (mkMessages none "q") (7 / 10))] ∧
    (generate_response (fun _ _ => .ok "wres") (fun _ => .ok "resp") "q" (some "ctx") none
        "openai" "gpt-4" (7 / 10) true "serpapi").2 =
      [.webSearchCall "q" "serpapi",
       .llmCall (.openai "gpt-4"
         (mkMessages none ("Web Search Results:\n" ++ "wres" ++ "\n\n" ++
           ("Context:\n" ++ "ctx" ++ "\n\nQuestion: " ++ "q"))) (7 / 10))] :=
  ⟨⟨by decide, rfl⟩,
    C6_prompt_template (fun _ _ => .ok "wres") (fun _ => .ok "resp") "q" "ctx" none
      (7 / 10) "serpapi" "wres" (by decide) rfl⟩

/-- Claim C7: the knowledge-retrieval executor always issues its query with
a fixed top-k of 3, with the configured collection and embedding model
defaulting to "default" and "openai" when the config omits them (the getD
in the logged call), and on success writes the chunk contents joined by a
blank line into state.context as a single string. -/
theorem C7_retrieval_executor (R : RetrievalOracle) (W : WebSearchOracle) (L : LlmOracle)
    (nodes : List NodeData) (cfgs : List (String × NodeConfig)) (state : ExecutionState)
    (id : String) (n : NodeData)
    (hfind : nodes.find? (fun m => m.id == id) = some n)
    (hct : n.componentType = "knowledgeBase") :
    (runNode R W L nodes cfgs state id).2 =
      [.nodeVisited id n.componentType,
       .retrievalCall ((cfgOf cfgs id).collectionName.getD "default") state.query
         ((cfgOf cfgs id).embeddingModel.getD "openai") 3] ∧
    (∀ chunks, R ((cfgOf cfgs id).collectionName.getD "default") state.query
        ((cfgOf cfgs id).embeddingModel.getD "openai") 3 = .ok chunks →
      (runNode R W L nodes cfgs state id).1 =
        .ok { state with
              context := some (String.intercalate "\n\n" (chunks.map (fun r => r.content))) }) := by
  rw [runNode_knowledgeBase R W L nodes cfgs state id n hfind hct]
  constructor
  · rfl
  · intro chunks hok
    rw [hok]

/-- Witness for C7: with an omitted node config, the executor queries
collection "default" with embedding model "openai" and top-k 3, and joins
the two returned chunks with a blank line. -/
theorem C7_retrieval_executor_witness :
    (([⟨"B", "knowledgeBase"⟩] : List NodeData).find? (fun m => m.id == "B") =
        some (NodeData.mk "B" "knowledgeBase")) ∧
    (runNode (fun _ _ _ _ => .ok [⟨"X is a thing."⟩, ⟨"X was invented in 1990."⟩])
        (fun _ _ => .error "w") (fun _ => .error "l")
        [⟨"B", "knowledgeBase"⟩] [] (initState "q") "B").2 =
      [.nodeVisited "B" "knowledgeBase", .retrievalCall "default" "q" "openai" 3] ∧
    (runNode (fun _ _ _ _ => .ok [⟨"X is a thing."⟩, ⟨"X was invented in 1990."⟩])
        (fun _ _ => .error "w") (fun _ => .error "l")
        [⟨"B", "knowledgeBase"⟩] [] (initState "q") "B").1 =
      .ok { initState "q" with context := some "X is a thing.\n\nX was invented in 1990." } := by
  refine ⟨by decide, ?_, ?_⟩
  · exact (C7_retrieval_executor _ _ _ _ _ _ "B" (NodeData.mk "B" "knowledgeBase")
      (by decide) (by decide)).1
  · exact (C7_retrieval_executor _ _ _ _ _ _ "B" (NodeData.mk "B" "knowledgeBase")
      (by decide) (by decide)).2 [⟨"X is a thing."⟩, ⟨"X was invented in 1990."⟩] rfl

/-- Counterexample to claim C8 as stated: two runs (userQuery feeding a
knowledgeBase node, with retrieval returning different chunks) whose final
states agree on query, response and metadata, yet whose returned values
differ — the snapshot execute_workflow returns also carries the context
field, so it is not exactly the query, response, metadata projection. -/
theorem C8_result_counterexample :
    (execute_workflow (fun _ _ _ _ => .ok [⟨"c1"⟩]) (fun _ _ => .error "w")
        (fun _ => .error "l") "q" [⟨"A", "userQuery"⟩, ⟨"B", "knowledgeBase"⟩]
        [⟨"A", "B"⟩] []).1 = .ok ⟨"q", some "c1", none, none⟩ ∧
    (execute_workflow (fun _ _ _ _ => .ok [⟨"c2"⟩]) (fun _ _ => .error "w")
        (fun _ => .error "l") "q" [⟨"A", "userQuery"⟩, ⟨"B", "knowledgeBase"⟩]
        [⟨"A", "B"⟩] []).1 = .ok ⟨"q", some "c2", none, none⟩ ∧
    (ExecutionState.mk "q" (some "c1") none none).query =
      (ExecutionState.mk "q" (some "c2") none none).query ∧
    (ExecutionState.mk "q" (some "c1") none none).response =
      (ExecutionState.mk "q" (some "c2") none none).response ∧
    (ExecutionState.mk "q" (some "c1") none none).metadata =
      (ExecutionState.mk "q" (some "c2") none none).metadata ∧
    ExecutionState.mk "q" (some "c1") none none ≠
      ExecutionState.mk "q" (some "c2") none none := by
  decide

/-- Claim C8 amended: execute_workflow returns the full final
ExecutionState — query, context, response and metadata, not only the
claimed three fields (see the counterexample).  After an llmEngine step
the metadata holds the model identifier that was used and the raw
web-search text: with web search disabled the web context is absent (part
one); with web search enabled it is the raw text the search returned
(part two).  Both parts also show the returned state keeping its context
field. -/
theorem C8_result_snapshot (R : RetrievalOracle) (W : WebSearchOracle) (L : LlmOracle)
    (nodes : List NodeData) (cfgs : List (String × NodeConfig)) (state : ExecutionState)
    (id : String) (n : NodeData)
    (hfind : nodes.find? (fun m => m.id == id) = some n)
    (hct : n.componentType = "llmEngine")
    (hprov : (cfgOf cfgs id).provider.getD "openai" = "openai") :
    (∀ txt, (cfgOf cfgs id).enableWebSearch.getD false = false →
      L (.openai ((cfgOf cfgs id).model.getD "gpt-4")
        (mkMessages (cfgOf cfgs id).systemPrompt (buildPrompt state.query state.context))
        ((cfgOf cfgs id).temperature.getD (7 / 10))) = .ok txt →
      (runNode R W L nodes cfgs state id).1 =
        .ok { state with
              response := some txt,
              metadata := some ⟨(cfgOf cfgs id).model.getD "gpt-4", none⟩ }) ∧
    (∀ txt w, (cfgOf cfgs id).enableWebSearch.getD false = true →
      W state.query ((cfgOf cfgs id).searchProvider.getD "serpapi") = .ok w →
      L (.openai ((cfgOf cfgs id).model.getD "gpt-4")
        (mkMessages (cfgOf cfgs id).systemPrompt
          ("Web Search Results:\n" ++ w ++ "\n\n" ++ buildPrompt state.query state.context))
        ((cfgOf cfgs id).temperature.getD (7 / 10))) = .ok txt →
      (runNode R W L nodes cfgs state id).1 =
        .ok { state with
              response := some txt,
              metadata := some ⟨(cfgOf cfgs id).model.getD "gpt-4", some w⟩ }) := by
  constructor
  · intro txt hws hok
    rw [runNode_llmEngine R W L nodes cfgs state id n hfind hct, hws,
      generate_response_noWS, hprov, llmDispatch_openai, hok]
  · intro txt w hws hw hok
    rw [runNode_llmEngine R W L nodes cfgs state id n hfind hct, hws,
      generate_response_WS W L state.query state.context (cfgOf cfgs id).systemPrompt
        ((cfgOf cfgs id).provider.getD "openai") ((cfgOf cfgs id).model.getD "gpt-4")
        ((cfgOf cfgs id).temperature.getD (7 / 10))
        ((cfgOf cfgs id).searchProvider.getD "serpapi") w hw,
      hprov, llmDispatch_openai, hok]

/-- Witness for the amended C8: a concrete llmEngine step without and with
web search; metadata records the model and, respectively, no web text and
the raw web text, while the state keeps its context. -/
theorem C8_result_snapshot_witness :
    (([⟨"C", "llmEngine"⟩] : List NodeData).find? (fun m => m.id == "C") =
        some (NodeData.mk "C" "llmEngine")) ∧
    (runNode (fun _ _ _ _ => .error "r") (fun _ _ => .ok "wres") (fun _ => .ok "resp")
        [⟨"C", "llmEngine"⟩] [] (ExecutionState.mk "q" (some "ctx") none none) "C").1 =
      .ok { ExecutionState.mk "q" (some "ctx") none none with
            response := some "resp", metadata := some ⟨"gpt-4", none⟩ } ∧
    (runNode (fun _ _ _ _ => .error "r") (fun _ _ => .ok "wres") (fun _ => .ok "resp")
        [⟨"C", "llmEngine"⟩] [("C", { enableWebSearch := some true })]
        (ExecutionState.mk "q" (some "ctx") none none) "C").1 =
      .ok { ExecutionState.mk "q" (some "ctx") none none with
            response := some "resp", metadata := some ⟨"gpt-4", some "wres"⟩ } := by
  refine ⟨by decide, ?_, ?_⟩
  · exact (C8_result_snapshot _ _ _ _ [] _ "C" (NodeData.mk "C" "llmEngine")
      (by decide) (by decide) (by decide)).1 "resp" (by decide) rfl
  · exact (C8_result_snapshot _ _ _ _ [("C", { enableWebSearch := some true })] _ "C"
      (NodeData.mk "C" "llmEngine") (by decide) (by decide) (by decide)).2
      "resp" "wres" (by decide) rfl rfl

end Workflow
